import Mathlib

/-!
# Verification of the claude-watch Session Registry

A shallow embedding of `src/sessionRegistry.ts` (the reconciliation core of the
claude-watch VS Code extension) together with proofs about its invariants and
event handlers.

Modelling conventions:

* JavaScript `Map` objects become association lists (`List (K × V)`) with
  lookup `mget`, overwriting insert `mset` and delete `mdel`.
* JavaScript numbers that hold timestamps or durations become `Int`
  (JS subtraction can go negative); `mtimeMs` values and pids become `Nat`.
* JavaScript truthiness tests on strings/numbers are translated literally:
  `if (s)` on a string becomes `s ≠ ""`, `x || y` on a number becomes
  `if x ≠ 0 then x else y`, `o || null` on a nullable string collapses
  `some ""` to `none`.
* External collaborators are parameters: the transcript parser
  (`parse(path) → SessionState | none`, pure per the spec), `fs.stat`
  (an `Option Nat` mtime per path), the process table (`ps -o lstart=`,
  a `Nat → Option String`), `cwdEquals` and the terminal linker's
  `canLinkToVSCodeTerminal` probe.
* `notifyUpdate()` schedules one debounced notification; we count calls to it
  in `notifyCount`.  The stale-tool `setTimeout` callback of
  `handlePreToolUse` is modelled by `fireStaleTimer`, applied when the timer
  expires (30 s after arming) without having been cleared.
* The terminal linker's asynchronous lazy-link attempts (which only touch
  terminal state, plus an optional ppid correction) are outside the claims
  checked here and are not modelled.
-/

namespace ClaudeWatch

/-! ## Association-list maps (JavaScript `Map`) -/

variable {K : Type} {V : Type}

/-- Lookup in an association list (first matching key wins, like `Map.get`). -/
def mget [DecidableEq K] : List (K × V) → K → Option V
  | [], _ => none
  | (k, v) :: r, k' => if k' = k then some v else mget r k'

/-- Remove every binding of a key (like `Map.delete`). -/
def mdel [DecidableEq K] : List (K × V) → K → List (K × V)
  | [], _ => []
  | (k, v) :: r, k' => if k' = k then mdel r k' else (k, v) :: mdel r k'

/-- Overwriting insert (like `Map.set`). -/
def mset [DecidableEq K] (m : List (K × V)) (k : K) (v : V) : List (K × V) :=
  (k, v) :: mdel m k

@[simp] theorem mget_nil [DecidableEq K] (k : K) : mget ([] : List (K × V)) k = none := rfl

@[simp] theorem mget_mdel [DecidableEq K] (m : List (K × V)) (k k' : K) :
    mget (mdel m k) k' = if k' = k then none else mget m k' := by
  induction m with
  | nil => simp [mdel]
  | cons p r ih =>
    obtain ⟨a, b⟩ := p
    by_cases hka : k = a
    · subst hka
      by_cases h : k' = k
      · subst h
        simp [mdel, mget, ih]
      · simp [mdel, mget, h, ih]
    · by_cases h : k' = a
      · subst h
        have hne : ¬ k' = k := fun hh => hka hh.symm
        simp [mdel, hka, mget, hne]
      · simp [mdel, hka, mget, h, ih]

@[simp] theorem mget_mset [DecidableEq K] (m : List (K × V)) (k : K) (v : V) (k' : K) :
    mget (mset m k v) k' = if k' = k then some v else mget m k' := by
  by_cases hk : k' = k <;> simp [mset, mget, hk]

/-! ## Data model (`sessionRegistry.ts`, `hookServer.ts`) -/

/-- `SessionStatus` from the transcript parser: Working | Paused | Done. -/
inductive SessionStatus
  | working
  | paused
  | done
deriving DecidableEq, Repr

/-- Parsed transcript snapshot.  The parser itself lives outside the registry
(`parseTranscript` is an external pure collaborator); the fields listed here
are the ones the registry reads, as given by the spec's data model. -/
structure SessionState where
  sessionId : String
  cwd : String
  created : Int
  lastModified : Int
  status : SessionStatus
  isAgent : Bool
  parentSessionId : Option String
  lastUserPrompt : Option String
deriving DecidableEq, Repr

/-- `CurrentTool`: the tool currently executing.  The `staleTimer` handle is
not data; its behaviour is modelled by `fireStaleTimer`. -/
structure CurrentTool where
  name : String
  input : String
  startTime : Int
deriving DecidableEq, Repr

/-- `RecentTool`: a completed tool invocation. -/
structure RecentTool where
  name : String
  input : String
  result : Option String
  duration : Int
  timestamp : Int
deriving DecidableEq, Repr

/-- `SessionRecord`: hook identity plus parsed state. -/
structure SessionRecord where
  sessionId : String
  transcriptPath : String
  cwd : String
  pid : Nat
  ppid : Nat
  tty : String
  pidStartTime : Option String
  state : Option SessionState
  currentTool : Option CurrentTool
  recentTools : List RecentTool
  lastActivityTime : Int
deriving DecidableEq, Repr

/-- `HookEvent` (SessionStart / SessionEnd payload) from `hookServer.ts`. -/
structure HookEvent where
  sessionId : String
  transcriptPath : String
  cwd : String
  pid : Nat
  ppid : Nat
  tty : String
deriving DecidableEq, Repr

/-- `ToolHookEvent` (PreToolUse / PostToolUse payload) from `hookServer.ts`. -/
structure ToolHookEvent where
  sessionId : String
  transcriptPath : String
  cwd : String
  toolName : String
  toolInput : String
  toolResult : Option String
  timestamp : Int
  pid : Nat
  ppid : Nat
  tty : String
deriving DecidableEq, Repr

-- Constants from sessionRegistry.ts
def MAX_RECENT_TOOLS : Nat := 15
def STALE_TOOL_TIMEOUT_MS : Int := 30 * 1000
def MAX_INACTIVE_SESSIONS : Nat := 500
def DEBOUNCE_MS : Nat := 150

/-- The mutable state of a `SessionRegistry` instance. -/
structure Registry where
  activeSessions : List (String × SessionRecord)
  allSessions : List (String × SessionState)
  pidIndex : List (Nat × String)
  ppidIndex : List (Nat × String)
  pathIndex : List (String × String)
  fileLastModified : List (String × Nat)
  orphanedAgents : List (String × String)
  notifyCount : Nat
deriving DecidableEq, Repr

/-- A freshly constructed registry. -/
def initRegistry : Registry :=
  { activeSessions := [], allSessions := [], pidIndex := [], ppidIndex := []
    pathIndex := [], fileLastModified := [], orphanedAgents := [], notifyCount := 0 }

/-- `notifyUpdate()`: schedule one debounced notification. -/
def notify (r : Registry) : Registry := { r with notifyCount := r.notifyCount + 1 }

/-! ## `parseAndUpdateSession` -/

/-- The skip-if-unchanged test of `parseAndUpdateSession`:
`if (lastMtime && stats.mtimeMs <= lastMtime) return` — a cached `0` is falsy. -/
def skipUnchanged (r : Registry) (filePath : String) (mt : Nat) : Bool :=
  match mget r.fileLastModified filePath with
  | some last => last != 0 && mt ≤ last
  | none => false

/-- The orphaned-agent bookkeeping of `parseAndUpdateSession`: an agent
snapshot whose declared parent (`state.parentSessionId`, truthiness test) has
no active record joins the waiting map, otherwise it leaves it. -/
def updateOrphanedAgents (r : Registry) (filePath : String) (st : SessionState) : Registry :=
  if st.isAgent then
    match st.parentSessionId with
    | some p =>
      if p ≠ "" then
        match mget r.activeSessions p with
        | none => { r with orphanedAgents := mset r.orphanedAgents filePath p }
        | some _ => { r with orphanedAgents := mdel r.orphanedAgents filePath }
      else r
    | none => r
  else r

/-- The record-selection rule of `parseAndUpdateSession`:
`this.pathIndex.get(filePath) || state.sessionId` (an empty id is falsy). -/
def claimedSessionId (r : Registry) (filePath : String) (st : SessionState) : String :=
  match mget r.pathIndex filePath with
  | some s => if s = "" then st.sessionId else s
  | none => st.sessionId

/-- The state-update tail of `parseAndUpdateSession`: write the snapshot into
the claimed record, or, when no active record claims the file, store it in the
archived/unclaimed `allSessions` map; either way one notification is
scheduled. -/
def applyParsedState (r : Registry) (filePath : String) (st : SessionState) : Registry :=
  match mget r.activeSessions (claimedSessionId r filePath st) with
  | some rec =>
    let rec' := { rec with state := some st }
    notify { r with activeSessions := mset r.activeSessions (claimedSessionId r filePath st) rec' }
  | none =>
    notify { r with allSessions := mset r.allSessions st.sessionId st }

/-- `parseAndUpdateSession(filePath)`.  `statMtime` is the result of
`fs.promises.stat` (`none` on error) and `parsed` the result of
`parseTranscript`.  In order: mtime skip check, mtime cache update,
early return on a null parse, orphaned-agent bookkeeping, state update. -/
def parseAndUpdateSession (r : Registry) (filePath : String)
    (statMtime : Option Nat) (parsed : Option SessionState) : Registry :=
  match statMtime with
  | none => r
  | some mt =>
    if skipUnchanged r filePath mt then r
    else
      match parsed with
      | none => { r with fileLastModified := mset r.fileLastModified filePath mt }
      | some st =>
        applyParsedState
          (updateOrphanedAgents
            { r with fileLastModified := mset r.fileLastModified filePath mt } filePath st)
          filePath st

/-! ## SessionStart -/

/-- Remove a record and the index entries derived from it (the four `delete`
calls shared by the eviction loop of `handleSessionStart`,
`handleSessionEnd` and `cleanupOrphanedSessions`). -/
def unregister (r : Registry) (sid : String) (rec : SessionRecord) : Registry :=
  { r with pidIndex := mdel r.pidIndex rec.pid
           ppidIndex := mdel r.ppidIndex rec.ppid
           pathIndex := mdel r.pathIndex rec.transcriptPath
           activeSessions := mdel r.activeSessions sid }

/-- One iteration of the eviction loop at the top of `handleSessionStart`:
`if (existingId && existingId !== event.sessionId)` remove the old record and
all of its index entries. -/
def evictId (r : Registry) (newSid : String) (existingId : Option String) : Registry :=
  match existingId with
  | none => r
  | some i =>
    if i ≠ "" ∧ i ≠ newSid then
      match mget r.activeSessions i with
      | some old => unregister r i old
      | none => r
    else r

/-- "Store and index" block shared by `handleSessionStart` and
`restorePersistedSessions`: set the record and its three index entries. -/
def registerRecord (r : Registry) (record : SessionRecord) : Registry :=
  { r with activeSessions := mset r.activeSessions record.sessionId record
           pidIndex := mset r.pidIndex record.pid record.sessionId
           ppidIndex := mset r.ppidIndex record.ppid record.sessionId
           pathIndex := mset r.pathIndex record.transcriptPath record.sessionId }

/-- The eviction phase of `handleSessionStart`: both index lookups are
computed on the incoming state before either eviction runs. -/
def startEvict (r : Registry) (ev : HookEvent) : Registry :=
  evictId (evictId r ev.sessionId (mget r.pidIndex ev.pid))
    ev.sessionId (mget r.ppidIndex ev.ppid)

/-- The record created by `handleSessionStart`, reusing archived state from
`allSessions` for resumed sessions.  `pidStartTime` starts `null` and is
back-filled asynchronously. -/
def startRecord (r : Registry) (ev : HookEvent) (now : Int) : SessionRecord :=
  { sessionId := ev.sessionId, transcriptPath := ev.transcriptPath, cwd := ev.cwd
    pid := ev.pid, ppid := ev.ppid, tty := ev.tty, pidStartTime := none
    state := mget r.allSessions ev.sessionId, currentTool := none, recentTools := []
    lastActivityTime := now }

/-- `handleSessionStart(event)`.  Evicts any indexed claimant of the same pid
or ppid, creates the record, stores and indexes it, clears the mtime cache
entry for the transcript and force re-parses it.  `now` is `Date.now()`;
`statMtime`/`parsed` feed the final `parseAndUpdateSession`.  The asynchronous
`pidStartTime` back-fill, persistence write and pending terminal link are
external effects that do not touch the maps modelled here. -/
def handleSessionStart (r : Registry) (ev : HookEvent) (now : Int)
    (statMtime : Option Nat) (parsed : Option SessionState) : Registry :=
  let r2 := startEvict r ev
  let r3 := registerRecord r2 (startRecord r2 ev now)
  parseAndUpdateSession
    { r3 with fileLastModified := mdel r3.fileLastModified ev.transcriptPath }
    ev.transcriptPath statMtime parsed

/-! ## SessionEnd -/

/-- Shared tail of `handleSessionEnd` / `cleanupOrphanedSessions`: compute the
final snapshot (the cached one, else a fresh parse when the path is truthy —
which also clears the mtime cache entry) and archive it into `allSessions`. -/
def archiveRecord (r : Registry) (sid : String) (rec : SessionRecord)
    (finalParse : Option SessionState) : Registry :=
  match rec.state with
  | some s => { r with allSessions := mset r.allSessions sid s }
  | none =>
    if rec.transcriptPath ≠ "" then
      match finalParse with
      | some s =>
        { r with fileLastModified := mdel r.fileLastModified rec.transcriptPath
                 allSessions := mset r.allSessions sid s }
      | none => { r with fileLastModified := mdel r.fileLastModified rec.transcriptPath }
    else r

/-- `handleSessionEnd(event)`: unregister, archive a best-effort final
snapshot, notify.  `finalParse` is what `parseTranscript` would return for the
record's transcript. -/
def handleSessionEnd (r : Registry) (sessionId : String)
    (finalParse : Option SessionState) : Registry :=
  match mget r.activeSessions sessionId with
  | none => notify r
  | some rec => notify (archiveRecord (unregister r sessionId rec) sessionId rec finalParse)

/-! ## File watcher events -/

/-- The index/map teardown of `handleFileDelete`: look the path up in the path
index (`if (sessionId)` — an empty id is falsy), tear down the active record
if any, drop the path-index and archived entries. -/
def fileDeleteCore (r : Registry) (filePath : String) : Registry :=
  match mget r.pathIndex filePath with
  | some sid =>
    if sid ≠ "" then
      match mget r.activeSessions sid with
      | some rec =>
        { r with pidIndex := mdel r.pidIndex rec.pid
                 ppidIndex := mdel r.ppidIndex rec.ppid
                 activeSessions := mdel r.activeSessions sid
                 pathIndex := mdel r.pathIndex filePath
                 allSessions := mdel r.allSessions sid }
      | none =>
        { r with pathIndex := mdel r.pathIndex filePath
                 allSessions := mdel r.allSessions sid }
    else r
  | none => r

/-- `handleFileDelete(uri)`: tear down, clear the mtime cache entry, notify. -/
def handleFileDelete (r : Registry) (filePath : String) : Registry :=
  let r1 := fileDeleteCore r filePath
  notify { r1 with fileLastModified := mdel r1.fileLastModified filePath }

/-! ## Tool hook events -/

/-- `event.timestamp || Date.now()` — a zero timestamp is falsy. -/
def eventTime (ev : ToolHookEvent) (now : Int) : Int :=
  if ev.timestamp ≠ 0 then ev.timestamp else now

/-- The record written by `handlePreToolUse`: activity bumped and
`currentTool` set with the armed start time. -/
def preToolRecord (rec : SessionRecord) (ev : ToolHookEvent) (now : Int) : SessionRecord :=
  { rec with lastActivityTime := now
             currentTool := some { name := ev.toolName, input := ev.toolInput
                                   startTime := eventTime ev now } }

/-- `handlePreToolUse(event)`: for a known session, clear any previous stale
timer, bump activity, set `currentTool` (start time `event.timestamp ||
Date.now()`) with a fresh stale timer, notify.  Unknown sessions are ignored
before anything is touched. -/
def handlePreToolUse (r : Registry) (ev : ToolHookEvent) (now : Int) : Registry :=
  match mget r.activeSessions ev.sessionId with
  | none => r
  | some rec =>
    notify { r with activeSessions := mset r.activeSessions ev.sessionId (preToolRecord rec ev now) }

/-- The stale-timer callback armed by `handlePreToolUse`, fired
`STALE_TOOL_TIMEOUT_MS` after arming if neither cleared by a later
`PreToolUse` nor cancelled by `PostToolUse`: if the current tool is still the
one the timer was armed for, clear it and notify. -/
def fireStaleTimer (r : Registry) (sessionId toolName : String) : Registry :=
  match mget r.activeSessions sessionId with
  | none => r
  | some rec =>
    match rec.currentTool with
    | some ct =>
      if ct.name = toolName then
        let rec' := { rec with currentTool := none }
        notify { r with activeSessions := mset r.activeSessions sessionId rec' }
      else r
    | none => r

/-- The duration computed by `handlePostToolUse`: completion timestamp minus
the recorded start time, `0` when no matching tool start was seen. -/
def toolDuration (rec : SessionRecord) (ev : ToolHookEvent) (now : Int) : Int :=
  match rec.currentTool with
  | some ct => eventTime ev now - ct.startTime
  | none => 0

/-- The `RecentTool` entry prepended by `handlePostToolUse`. -/
def completedTool (rec : SessionRecord) (ev : ToolHookEvent) (now : Int) : RecentTool :=
  { name := ev.toolName, input := ev.toolInput, result := ev.toolResult
    duration := toolDuration rec ev now, timestamp := eventTime ev now }

/-- `unshift` followed by the size-limit `pop`: prepend the entry and drop the
oldest when over `MAX_RECENT_TOOLS`. -/
def boundedRecentTools (entry : RecentTool) (rts : List RecentTool) : List RecentTool :=
  if (entry :: rts).length > MAX_RECENT_TOOLS then (entry :: rts).dropLast else entry :: rts

/-- The record written by `handlePostToolUse`: activity bumped, entry
prepended (capacity-bounded), `currentTool` cleared. -/
def postToolRecord (rec : SessionRecord) (ev : ToolHookEvent) (now : Int) : SessionRecord :=
  { rec with lastActivityTime := now
             currentTool := none
             recentTools := boundedRecentTools (completedTool rec ev now) rec.recentTools }

/-- `handlePostToolUse(event)`: for a known session, compute the duration
against the recorded start (`0` when no tool start was recorded), cancel the
stale timer, prepend a `RecentTool` entry, enforce the `MAX_RECENT_TOOLS`
bound by popping the oldest entry, clear `currentTool`, notify. -/
def handlePostToolUse (r : Registry) (ev : ToolHookEvent) (now : Int) : Registry :=
  match mget r.activeSessions ev.sessionId with
  | none => r
  | some rec =>
    notify { r with activeSessions := mset r.activeSessions ev.sessionId (postToolRecord rec ev now) }

/-! ## Process validation, cleanup, persistence -/

/-- `getProcessStartTime(pid)`: the trimmed output of `ps -p pid -o lstart=`,
returned only when non-empty.  `live` is the process table. -/
def getProcessStartTime (live : Nat → Option String) (pid : Nat) : Option String :=
  match live pid with
  | some s => if s ≠ "" then some s else none
  | none => none

/-- `isProcessValid(pid, expectedStartTime)`: the process must exist; with no
stored fingerprint (`!expectedStartTime`, so `null` or the falsy `""`) the
check degrades to existence; otherwise the fingerprints must be equal. -/
def isProcessValid (live : Nat → Option String) (pid : Nat)
    (expectedStartTime : Option String) : Bool :=
  match getProcessStartTime live pid with
  | none => false
  | some cur =>
    match expectedStartTime with
    | none => true
    | some exp => if exp = "" then true else cur = exp

/-- One iteration of the removal loop of `cleanupOrphanedSessions`: the
session id is looked up again, unregistered and archived. -/
def cleanupOne (fsParse : String → Option SessionState) (r : Registry)
    (sid : String) : Registry :=
  match mget r.activeSessions sid with
  | none => r
  | some rec => archiveRecord (unregister r sid rec) sid rec (fsParse rec.transcriptPath)

/-- The collection phase of `cleanupOrphanedSessions`: the ids of the active
sessions whose process is no longer valid. -/
def orphanedIds (r : Registry) (live : Nat → Option String) : List String :=
  (r.activeSessions.filter fun p => ! isProcessValid live p.2.pid p.2.pidStartTime).map (·.1)

/-- `cleanupOrphanedSessions()`: collect the active sessions whose process is
no longer valid, then unregister and archive each (re-parsing the transcript
when no snapshot is cached); notify once if anything was removed.
`fsParse` supplies `parseTranscript` results. -/
def cleanupOrphanedSessions (r : Registry) (live : Nat → Option String)
    (fsParse : String → Option SessionState) : Registry :=
  if (orphanedIds r live).isEmpty then (orphanedIds r live).foldl (cleanupOne fsParse) r
  else notify ((orphanedIds r live).foldl (cleanupOne fsParse) r)

/-- One element of the array written by `persistSessions` and read back by
`restorePersistedSessions`.  `pidStartTime` and `recentTools` are optional on
load for backwards compatibility with stores written by older versions. -/
structure PersistedSession where
  sessionId : String
  transcriptPath : String
  cwd : String
  pid : Nat
  ppid : Nat
  tty : String
  pidStartTime : Option String
  recentTools : Option (List RecentTool)
deriving DecidableEq, Repr

/-- `persistSessions()`: project every active record onto the persisted
schema.  There is no version field. -/
def persistSessions (r : Registry) : List PersistedSession :=
  r.activeSessions.foldr (fun p acc =>
    { sessionId := p.2.sessionId, transcriptPath := p.2.transcriptPath
      cwd := p.2.cwd, pid := p.2.pid, ppid := p.2.ppid, tty := p.2.tty
      pidStartTime := p.2.pidStartTime
      recentTools := some p.2.recentTools } :: acc) []

/-- `x || null` on a nullable string: a missing or empty value becomes `none`. -/
def orNull (o : Option String) : Option String :=
  match o with
  | some s => if s = "" then none else some s
  | none => none

/-- The workspace filter of `restorePersistedSessions`:
`if (this.workspacePath && !cwdEquals(session.cwd, this.workspacePath))`.
`cwdEq` is the external `cwdEquals` helper. -/
def workspaceBlocked (cwdEq : String → String → Bool)
    (workspacePath : Option String) (cwd : String) : Bool :=
  match workspacePath with
  | some w => if w = "" then false else ! cwdEq cwd w
  | none => false

/-- One iteration of the restore loop: gate on process validity (with
`pidStartTime || null`), workspace match and terminal linkability, then build
the record with backwards-compatible defaults, register it, re-parse its
transcript and notify incrementally. -/
def restoreOne (live : Nat → Option String) (cwdEq : String → String → Bool)
    (workspacePath : Option String) (canLink : Nat → Nat → Bool)
    (fsStat : String → Option Nat) (fsParse : String → Option SessionState)
    (now : Int) (r : Registry) (s : PersistedSession) : Registry :=
  if ! isProcessValid live s.pid (orNull s.pidStartTime) then r
  else if workspaceBlocked cwdEq workspacePath s.cwd then r
  else if ! canLink s.pid s.ppid then r
  else
    let record : SessionRecord :=
      { sessionId := s.sessionId, transcriptPath := s.transcriptPath, cwd := s.cwd
        pid := s.pid, ppid := s.ppid, tty := s.tty
        pidStartTime := orNull s.pidStartTime
        state := none, currentTool := none
        recentTools := s.recentTools.getD []
        lastActivityTime := now }
    let r := registerRecord r record
    let r := parseAndUpdateSession r s.transcriptPath (fsStat s.transcriptPath)
               (fsParse s.transcriptPath)
    notify r

/-- `restorePersistedSessions()`: clear the mtime cache, then run every stored
record through the three gates sequentially.  There is no version check on the
loaded array. -/
def restorePersistedSessions (live : Nat → Option String)
    (cwdEq : String → String → Bool) (workspacePath : Option String)
    (canLink : Nat → Nat → Bool) (fsStat : String → Option Nat)
    (fsParse : String → Option SessionState) (now : Int)
    (r : Registry) (stored : List PersistedSession) : Registry :=
  let r := { r with fileLastModified := [] }
  stored.foldl (restoreOne live cwdEq workspacePath canLink fsStat fsParse now) r

/-! ## Event sequences -/

/-- The registry operations the invariant claims quantify over. -/
inductive REvent
  | start (ev : HookEvent) (now : Int) (statMtime : Option Nat) (parsed : Option SessionState)
  | sessionEnd (sessionId : String) (finalParse : Option SessionState)
  | fileChange (filePath : String) (statMtime : Option Nat) (parsed : Option SessionState)
  | fileDelete (filePath : String)
  | preTool (ev : ToolHookEvent) (now : Int)
  | postTool (ev : ToolHookEvent) (now : Int)
  | cleanup (live : Nat → Option String) (fsParse : String → Option SessionState)

/-- Apply one event.  `fileChange` goes through the per-file debounce into
`handleFileChange`, which (single-threadedly) is `parseAndUpdateSession`. -/
def step (r : Registry) : REvent → Registry
  | .start ev now statMtime parsed => handleSessionStart r ev now statMtime parsed
  | .sessionEnd sid finalParse => handleSessionEnd r sid finalParse
  | .fileChange f statMtime parsed => parseAndUpdateSession r f statMtime parsed
  | .fileDelete f => handleFileDelete r f
  | .preTool ev now => handlePreToolUse r ev now
  | .postTool ev now => handlePostToolUse r ev now
  | .cleanup live fsParse => cleanupOrphanedSessions r live fsParse

/-- Run a sequence of events from the fresh registry. -/
def runEvents (evs : List REvent) : Registry :=
  evs.foldl step initRegistry

/-! ## Invariants -/

/-- The index-consistency invariant: the three lookup indexes are exactly the
graphs of the active records' `pid`, `ppid` and `transcriptPath` fields, and
every active record is keyed (and stamped) by its own non-empty session id.
The `iff` formulation says simultaneously that every active record has its
entry in each index and that no index entry dangles. -/
structure IndexConsistent (r : Registry) : Prop where
  coherent : ∀ sid rec, mget r.activeSessions sid = some rec →
    rec.sessionId = sid ∧ sid ≠ ""
  pidIff : ∀ p sid, mget r.pidIndex p = some sid ↔
    ∃ rec, mget r.activeSessions sid = some rec ∧ rec.pid = p
  ppidIff : ∀ p sid, mget r.ppidIndex p = some sid ↔
    ∃ rec, mget r.activeSessions sid = some rec ∧ rec.ppid = p
  pathIff : ∀ pa sid, mget r.pathIndex pa = some sid ↔
    ∃ rec, mget r.activeSessions sid = some rec ∧ rec.transcriptPath = pa

/-- No session id is simultaneously in the active map and in the archived
(`allSessions`) map (claim C8's property). -/
def ActiveArchivedDisjoint (r : Registry) : Prop :=
  ∀ sid, mget r.activeSessions sid = none ∨ mget r.allSessions sid = none

/-- Every active record's `recentTools` respects the capacity bound. -/
def RecentToolsBounded (r : Registry) : Prop :=
  ∀ sid rec, mget r.activeSessions sid = some rec →
    rec.recentTools.length ≤ MAX_RECENT_TOOLS

/-- Weak pid-index coherence used for the at-most-one-per-pid claim: every
active record is keyed by a non-empty id and owns the pid-index entry for its
pid.  Functionality of `mget` then forces pid uniqueness. -/
def PidOwned (r : Registry) : Prop :=
  ∀ sid rec, mget r.activeSessions sid = some rec →
    sid ≠ "" ∧ mget r.pidIndex rec.pid = some sid ∧ mget r.ppidIndex rec.ppid = some sid

/-! ## Generic lemmas about one index over the active map -/

/-- Invariant transfer between registries that agree on the four indexed
fields. -/
theorem inv_congr {r r' : Registry} (h : IndexConsistent r)
    (ha : r'.activeSessions = r.activeSessions) (hp : r'.pidIndex = r.pidIndex)
    (hpp : r'.ppidIndex = r.ppidIndex) (hpa : r'.pathIndex = r.pathIndex) :
    IndexConsistent r' := by
  refine ⟨?_, ?_, ?_, ?_⟩ <;> rw [ha] <;> [skip; rw [hp]; rw [hpp]; rw [hpa]] <;>
    first
      | exact h.coherent
      | exact h.pidIff
      | exact h.ppidIff
      | exact h.pathIff

/-- Deleting a record together with its index entry preserves the
graph correspondence between one index and the active map. -/
theorem mdel_index_iff {K : Type} [DecidableEq K]
    (active : List (String × SessionRecord)) (idx : List (K × String))
    (f : SessionRecord → K) (sid : String) (rec : SessionRecord)
    (hIff : ∀ p s, mget idx p = some s ↔ ∃ rc, mget active s = some rc ∧ f rc = p)
    (hrec : mget active sid = some rec) (p : K) (s : String) :
    mget (mdel idx (f rec)) p = some s ↔
      ∃ rc, mget (mdel active sid) s = some rc ∧ f rc = p := by
  constructor
  · intro h
    rw [mget_mdel] at h
    by_cases hp : p = f rec
    · rw [if_pos hp] at h; cases h
    · rw [if_neg hp] at h
      obtain ⟨rc, hact, hfp⟩ := (hIff p s).mp h
      have hs : s ≠ sid := by
        intro hssid; subst hssid
        rw [hrec] at hact
        injection hact with hh
        subst hh
        exact hp hfp.symm
      exact ⟨rc, by rw [mget_mdel, if_neg hs]; exact hact, hfp⟩
  · rintro ⟨rc, hact, hfp⟩
    rw [mget_mdel] at hact
    by_cases hs : s = sid
    · rw [if_pos hs] at hact; cases hact
    · rw [if_neg hs] at hact
      have hidx : mget idx p = some s := (hIff p s).mpr ⟨rc, hact, hfp⟩
      have hpf : p ≠ f rec := by
        intro hpeq; subst hpeq
        have h2 : mget idx (f rec) = some sid := (hIff _ sid).mpr ⟨rec, hrec, rfl⟩
        rw [hidx] at h2
        injection h2 with hh
        exact hs hh
      rw [mget_mdel, if_neg hpf]
      exact hidx

/-- Inserting a fresh record together with its index entry preserves the
graph correspondence, provided no surviving record collides on the indexed
field. -/
theorem mset_index_iff {K : Type} [DecidableEq K]
    (active : List (String × SessionRecord)) (idx : List (K × String))
    (f : SessionRecord → K) (record : SessionRecord)
    (hIff : ∀ p s, mget idx p = some s ↔ ∃ rc, mget active s = some rc ∧ f rc = p)
    (hfresh : mget active record.sessionId = none)
    (hnocol : ∀ s rc, mget active s = some rc → f rc ≠ f record)
    (p : K) (s : String) :
    mget (mset idx (f record) record.sessionId) p = some s ↔
      ∃ rc, mget (mset active record.sessionId record) s = some rc ∧ f rc = p := by
  rw [mget_mset]
  by_cases hp : p = f record
  · rw [if_pos hp]
    constructor
    · intro h
      injection h with hh
      subst hh
      exact ⟨record, by rw [mget_mset, if_pos rfl], hp.symm⟩
    · rintro ⟨rc, hact, hfp⟩
      rw [mget_mset] at hact
      by_cases hs : s = record.sessionId
      · rw [hs]
      · rw [if_neg hs] at hact
        exact absurd (hfp.trans hp) (hnocol s rc hact)
  · rw [if_neg hp]
    constructor
    · intro h
      obtain ⟨rc, hact, hfp⟩ := (hIff p s).mp h
      have hs : s ≠ record.sessionId := by
        intro hseq; subst hseq
        rw [hfresh] at hact
        cases hact
      exact ⟨rc, by rw [mget_mset, if_neg hs]; exact hact, hfp⟩
    · rintro ⟨rc, hact, hfp⟩
      rw [mget_mset] at hact
      by_cases hs : s = record.sessionId
      · rw [if_pos hs] at hact
        injection hact with hh
        subst hh
        exact absurd hfp.symm hp
      · rw [if_neg hs] at hact
        exact (hIff p s).mpr ⟨rc, hact, hfp⟩

/-- Replacing a record by one with the same indexed field preserves the graph
correspondence without touching the index. -/
theorem mset_update_index_iff {K : Type} [DecidableEq K]
    (active : List (String × SessionRecord)) (idx : List (K × String))
    (f : SessionRecord → K) (k : String) (rec rec' : SessionRecord)
    (hIff : ∀ p s, mget idx p = some s ↔ ∃ rc, mget active s = some rc ∧ f rc = p)
    (hrec : mget active k = some rec) (hf : f rec' = f rec) (p : K) (s : String) :
    mget idx p = some s ↔
      ∃ rc, mget (mset active k rec') s = some rc ∧ f rc = p := by
  rw [hIff p s]
  constructor
  · rintro ⟨rc, hact, hfp⟩
    by_cases hs : s = k
    · subst hs
      rw [hrec] at hact
      injection hact with hh
      subst hh
      exact ⟨rec', by rw [mget_mset, if_pos rfl], hf.trans hfp⟩
    · exact ⟨rc, by rw [mget_mset, if_neg hs]; exact hact, hfp⟩
  · rintro ⟨rc, hact, hfp⟩
    rw [mget_mset] at hact
    by_cases hs : s = k
    · rw [if_pos hs] at hact
      injection hact with hh
      subst hh
      exact ⟨rec, hs ▸ hrec, hf ▸ hfp⟩
    · rw [if_neg hs] at hact
      exact ⟨rc, hact, hfp⟩

/-! ## Index consistency is preserved by the registry operations -/

theorem unregister_inv {r : Registry} {sid : String} {rec : SessionRecord}
    (hInv : IndexConsistent r) (hrec : mget r.activeSessions sid = some rec) :
    IndexConsistent (unregister r sid rec) := by
  refine ⟨?_, ?_, ?_, ?_⟩
  · intro s rc h
    have h' : mget (mdel r.activeSessions sid) s = some rc := h
    rw [mget_mdel] at h'
    by_cases hs : s = sid
    · rw [if_pos hs] at h'
      cases h'
    · rw [if_neg hs] at h'
      exact hInv.coherent s rc h'
  · exact fun p s =>
      mdel_index_iff r.activeSessions r.pidIndex (·.pid) sid rec hInv.pidIff hrec p s
  · exact fun p s =>
      mdel_index_iff r.activeSessions r.ppidIndex (·.ppid) sid rec hInv.ppidIff hrec p s
  · exact fun p s =>
      mdel_index_iff r.activeSessions r.pathIndex (·.transcriptPath) sid rec hInv.pathIff hrec p s

theorem evictId_inv {r : Registry} {nsid : String} {ex : Option String}
    (hInv : IndexConsistent r) : IndexConsistent (evictId r nsid ex) := by
  cases ex with
  | none => exact hInv
  | some i =>
    simp only [evictId]
    split
    · split
      · next old heq => exact unregister_inv hInv heq
      · exact hInv
    · exact hInv

theorem evictId_active_subset {r : Registry} {nsid : String} {ex : Option String}
    {sid : String} {rc : SessionRecord}
    (h : mget (evictId r nsid ex).activeSessions sid = some rc) :
    mget r.activeSessions sid = some rc := by
  cases ex with
  | none => exact h
  | some i =>
    simp only [evictId] at h
    split at h
    · split at h
      · next old heq =>
        have h' : mget (mdel r.activeSessions i) sid = some rc := h
        rw [mget_mdel] at h'
        by_cases hs : sid = i
        · rw [if_pos hs] at h'
          cases h'
        · rw [if_neg hs] at h'
          exact h'
      · exact h
    · exact h

theorem evictId_evicts {r : Registry} {nsid i : String} {old : SessionRecord}
    (hi : i ≠ "") (hin : i ≠ nsid) (hrec : mget r.activeSessions i = some old) :
    mget (evictId r nsid (some i)).activeSessions i = none := by
  simp only [evictId]
  rw [if_pos ⟨hi, hin⟩, hrec]
  show mget (mdel r.activeSessions i) i = none
  rw [mget_mdel, if_pos rfl]

theorem registerRecord_inv {r : Registry} {record : SessionRecord}
    (hInv : IndexConsistent r)
    (hsid : record.sessionId ≠ "")
    (hfresh : mget r.activeSessions record.sessionId = none)
    (hnopid : ∀ s rc, mget r.activeSessions s = some rc → rc.pid ≠ record.pid)
    (hnoppid : ∀ s rc, mget r.activeSessions s = some rc → rc.ppid ≠ record.ppid)
    (hnopath : ∀ s rc, mget r.activeSessions s = some rc →
      rc.transcriptPath ≠ record.transcriptPath) :
    IndexConsistent (registerRecord r record) := by
  refine ⟨?_, ?_, ?_, ?_⟩
  · intro s rc h
    have h' : mget (mset r.activeSessions record.sessionId record) s = some rc := h
    rw [mget_mset] at h'
    by_cases hs : s = record.sessionId
    · rw [if_pos hs] at h'
      injection h' with hh
      subst hh
      exact ⟨hs.symm, fun hc => hsid (hs.symm.trans hc)⟩
    · rw [if_neg hs] at h'
      exact hInv.coherent s rc h'
  · exact fun p s =>
      mset_index_iff r.activeSessions r.pidIndex (·.pid) record hInv.pidIff hfresh hnopid p s
  · exact fun p s =>
      mset_index_iff r.activeSessions r.ppidIndex (·.ppid) record hInv.ppidIff hfresh hnoppid p s
  · exact fun p s =>
      mset_index_iff r.activeSessions r.pathIndex (·.transcriptPath) record hInv.pathIff
        hfresh hnopath p s

theorem updateOrphanedAgents_fields (r : Registry) (f : String) (st : SessionState) :
    (updateOrphanedAgents r f st).activeSessions = r.activeSessions ∧
    (updateOrphanedAgents r f st).allSessions = r.allSessions ∧
    (updateOrphanedAgents r f st).pidIndex = r.pidIndex ∧
    (updateOrphanedAgents r f st).ppidIndex = r.ppidIndex ∧
    (updateOrphanedAgents r f st).pathIndex = r.pathIndex ∧
    (updateOrphanedAgents r f st).fileLastModified = r.fileLastModified ∧
    (updateOrphanedAgents r f st).notifyCount = r.notifyCount := by
  unfold updateOrphanedAgents
  repeat' split
  all_goals exact ⟨rfl, rfl, rfl, rfl, rfl, rfl, rfl⟩

theorem applyParsedState_indexes (r : Registry) (f : String) (st : SessionState) :
    (applyParsedState r f st).pidIndex = r.pidIndex ∧
    (applyParsedState r f st).ppidIndex = r.ppidIndex ∧
    (applyParsedState r f st).pathIndex = r.pathIndex := by
  unfold applyParsedState notify
  split
  all_goals exact ⟨rfl, rfl, rfl⟩

theorem applyParsedState_active_shape (r : Registry) (f : String) (st : SessionState) :
    (applyParsedState r f st).activeSessions = r.activeSessions ∨
    ∃ key rec, mget r.activeSessions key = some rec ∧
      (applyParsedState r f st).activeSessions =
        mset r.activeSessions key { rec with state := some st } := by
  unfold applyParsedState notify
  split
  · next rec heq => exact Or.inr ⟨_, rec, heq, rfl⟩
  · exact Or.inl rfl

theorem parse_indexes (r : Registry) (f : String) (mt : Option Nat)
    (pr : Option SessionState) :
    (parseAndUpdateSession r f mt pr).pidIndex = r.pidIndex ∧
    (parseAndUpdateSession r f mt pr).ppidIndex = r.ppidIndex ∧
    (parseAndUpdateSession r f mt pr).pathIndex = r.pathIndex := by
  cases mt with
  | none => exact ⟨rfl, rfl, rfl⟩
  | some m =>
    simp only [parseAndUpdateSession]
    split
    · exact ⟨rfl, rfl, rfl⟩
    · cases pr with
      | none => exact ⟨rfl, rfl, rfl⟩
      | some st =>
        obtain ⟨_, _, h2, h3, h4, _, _⟩ :=
          updateOrphanedAgents_fields
            { r with fileLastModified := mset r.fileLastModified f m } f st
        obtain ⟨g1, g2, g3⟩ :=
          applyParsedState_indexes
            (updateOrphanedAgents
              { r with fileLastModified := mset r.fileLastModified f m } f st) f st
        exact ⟨g1.trans h2, g2.trans h3, g3.trans h4⟩

theorem parse_active_shape (r : Registry) (f : String) (mt : Option Nat)
    (pr : Option SessionState) :
    (parseAndUpdateSession r f mt pr).activeSessions = r.activeSessions ∨
    ∃ key rec st, mget r.activeSessions key = some rec ∧
      (parseAndUpdateSession r f mt pr).activeSessions =
        mset r.activeSessions key { rec with state := some st } := by
  cases mt with
  | none => exact Or.inl rfl
  | some m =>
    simp only [parseAndUpdateSession]
    split
    · exact Or.inl rfl
    · cases pr with
      | none => exact Or.inl rfl
      | some st =>
        obtain ⟨h1, _, _, _, _, _, _⟩ :=
          updateOrphanedAgents_fields
            { r with fileLastModified := mset r.fileLastModified f m } f st
        rcases applyParsedState_active_shape
            (updateOrphanedAgents
              { r with fileLastModified := mset r.fileLastModified f m } f st) f st with
          hsh | ⟨key, rec, hrec, hsh⟩
        · exact Or.inl (hsh.trans h1)
        · rw [h1] at hrec hsh
          exact Or.inr ⟨key, rec, st, hrec, hsh⟩

theorem parse_inv {r : Registry} (f : String) (mt : Option Nat)
    (pr : Option SessionState) (hInv : IndexConsistent r) :
    IndexConsistent (parseAndUpdateSession r f mt pr) := by
  obtain ⟨hpi, hppi, hpai⟩ := parse_indexes r f mt pr
  rcases parse_active_shape r f mt pr with h | ⟨key, rec, st, hrec, h⟩
  · exact inv_congr hInv h hpi hppi hpai
  · refine ⟨?_, ?_, ?_, ?_⟩
    · intro s rc hh
      rw [h, mget_mset] at hh
      by_cases hs : s = key
      · rw [if_pos hs] at hh
        injection hh with hh2
        subst hh2
        obtain ⟨h1, h2⟩ := hInv.coherent key rec hrec
        exact ⟨hs ▸ h1, hs ▸ h2⟩
      · rw [if_neg hs] at hh
        exact hInv.coherent s rc hh
    · intro p s
      rw [hpi, h]
      exact mset_update_index_iff r.activeSessions r.pidIndex (·.pid) key rec
        { rec with state := some st } hInv.pidIff hrec rfl p s
    · intro p s
      rw [hppi, h]
      exact mset_update_index_iff r.activeSessions r.ppidIndex (·.ppid) key rec
        { rec with state := some st } hInv.ppidIff hrec rfl p s
    · intro p s
      rw [hpai, h]
      exact mset_update_index_iff r.activeSessions r.pathIndex (·.transcriptPath) key rec
        { rec with state := some st } hInv.pathIff hrec rfl p s

/-- Replacing an active record by one that agrees on all four indexed fields
preserves index consistency. -/
theorem update_record_inv {r : Registry} {k : String} {rec : SessionRecord}
    (rec' : SessionRecord)
    (hrec : mget r.activeSessions k = some rec)
    (hsid : rec'.sessionId = rec.sessionId) (hpid : rec'.pid = rec.pid)
    (hppid : rec'.ppid = rec.ppid) (hpath : rec'.transcriptPath = rec.transcriptPath)
    (hInv : IndexConsistent r) :
    IndexConsistent { r with activeSessions := mset r.activeSessions k rec' } := by
  refine ⟨?_, ?_, ?_, ?_⟩
  · intro s rc hh
    have hh' : mget (mset r.activeSessions k rec') s = some rc := hh
    rw [mget_mset] at hh'
    by_cases hs : s = k
    · rw [if_pos hs] at hh'
      injection hh' with hh2
      subst hh2
      obtain ⟨h1, h2⟩ := hInv.coherent k rec hrec
      exact ⟨hsid.trans (h1.trans hs.symm), fun hc => h2 (hs.symm.trans hc)⟩
    · rw [if_neg hs] at hh'
      exact hInv.coherent s rc hh'
  · exact fun p s =>
      mset_update_index_iff r.activeSessions r.pidIndex (·.pid) k rec rec'
        hInv.pidIff hrec hpid p s
  · exact fun p s =>
      mset_update_index_iff r.activeSessions r.ppidIndex (·.ppid) k rec rec'
        hInv.ppidIff hrec hppid p s
  · exact fun p s =>
      mset_update_index_iff r.activeSessions r.pathIndex (·.transcriptPath) k rec rec'
        hInv.pathIff hrec hpath p s

/-- After the eviction phase of a well-formed `SessionStart`: the intermediate
state is consistent, the new id is free, and no survivor collides with the new
record on pid, ppid or transcript path. -/
theorem start_inv_parts {r : Registry} {ev : HookEvent} (now : Int)
    (hInv : IndexConsistent r)
    (hsid : ev.sessionId ≠ "")
    (hfresh : mget r.activeSessions ev.sessionId = none)
    (hpath : ∀ sid rec, mget r.activeSessions sid = some rec →
      rec.transcriptPath = ev.transcriptPath → rec.pid = ev.pid ∨ rec.ppid = ev.ppid) :
    IndexConsistent (startEvict r ev) ∧
    mget (startEvict r ev).activeSessions ev.sessionId = none ∧
    (∀ s rc, mget (startEvict r ev).activeSessions s = some rc → rc.pid ≠ ev.pid) ∧
    (∀ s rc, mget (startEvict r ev).activeSessions s = some rc → rc.ppid ≠ ev.ppid) ∧
    (∀ s rc, mget (startEvict r ev).activeSessions s = some rc →
      rc.transcriptPath ≠ ev.transcriptPath) := by
  have hInv1 : IndexConsistent (evictId r ev.sessionId (mget r.pidIndex ev.pid)) :=
    evictId_inv hInv
  have hInv2 : IndexConsistent (startEvict r ev) := evictId_inv hInv1
  have hsub2 : ∀ {s rc}, mget (startEvict r ev).activeSessions s = some rc →
      mget r.activeSessions s = some rc :=
    fun h => evictId_active_subset (evictId_active_subset h)
  have hfresh2 : mget (startEvict r ev).activeSessions ev.sessionId = none := by
    cases h2 : mget (startEvict r ev).activeSessions ev.sessionId with
    | none => rfl
    | some rc =>
      have hh := hsub2 h2
      rw [hfresh] at hh
      cases hh
  have hnopid2 : ∀ s rc, mget (startEvict r ev).activeSessions s = some rc →
      rc.pid ≠ ev.pid := by
    intro s rc h2 hpe
    have hr : mget r.activeSessions s = some rc := hsub2 h2
    have hidx : mget r.pidIndex ev.pid = some s := (hInv.pidIff ev.pid s).mpr ⟨rc, hr, hpe⟩
    have hsne : s ≠ ev.sessionId := by
      intro hh
      subst hh
      rw [hfresh] at hr
      cases hr
    have hsnee : s ≠ "" := (hInv.coherent s rc hr).2
    have hgone :
        mget (evictId r ev.sessionId (mget r.pidIndex ev.pid)).activeSessions s = none := by
      rw [hidx]
      exact evictId_evicts hsnee hsne hr
    have h1 : mget (evictId r ev.sessionId (mget r.pidIndex ev.pid)).activeSessions s =
        some rc := evictId_active_subset h2
    rw [hgone] at h1
    cases h1
  have hnoppid2 : ∀ s rc, mget (startEvict r ev).activeSessions s = some rc →
      rc.ppid ≠ ev.ppid := by
    intro s rc h2 hpe
    have h1 : mget (evictId r ev.sessionId (mget r.pidIndex ev.pid)).activeSessions s =
        some rc := evictId_active_subset h2
    have hr : mget r.activeSessions s = some rc := evictId_active_subset h1
    have hidx : mget r.ppidIndex ev.ppid = some s := (hInv.ppidIff ev.ppid s).mpr ⟨rc, hr, hpe⟩
    have hsne : s ≠ ev.sessionId := by
      intro hh
      subst hh
      rw [hfresh] at hr
      cases hr
    have hsnee : s ≠ "" := (hInv.coherent s rc hr).2
    have hgone : mget (startEvict r ev).activeSessions s = none := by
      show mget (evictId (evictId r ev.sessionId (mget r.pidIndex ev.pid))
        ev.sessionId (mget r.ppidIndex ev.ppid)).activeSessions s = none
      rw [hidx]
      exact evictId_evicts hsnee hsne h1
    rw [hgone] at h2
    cases h2
  have hnopath2 : ∀ s rc, mget (startEvict r ev).activeSessions s = some rc →
      rc.transcriptPath ≠ ev.transcriptPath := by
    intro s rc h2 hpe
    rcases hpath s rc (hsub2 h2) hpe with hcol | hcol
    · exact hnopid2 s rc h2 hcol
    · exact hnoppid2 s rc h2 hcol
  exact ⟨hInv2, hfresh2, hnopid2, hnoppid2, hnopath2⟩

theorem start_inv {r : Registry} {ev : HookEvent} (now : Int) (mt : Option Nat)
    (pr : Option SessionState)
    (hInv : IndexConsistent r)
    (hsid : ev.sessionId ≠ "")
    (hfresh : mget r.activeSessions ev.sessionId = none)
    (hpath : ∀ sid rec, mget r.activeSessions sid = some rec →
      rec.transcriptPath = ev.transcriptPath → rec.pid = ev.pid ∨ rec.ppid = ev.ppid) :
    IndexConsistent (handleSessionStart r ev now mt pr) := by
  have hparts := start_inv_parts now hInv hsid hfresh hpath
  have hInv3 : IndexConsistent
      (registerRecord (startEvict r ev) (startRecord (startEvict r ev) ev now)) :=
    registerRecord_inv hparts.1 hsid hparts.2.1 hparts.2.2.1 hparts.2.2.2.1
      hparts.2.2.2.2
  exact parse_inv ev.transcriptPath mt pr (inv_congr hInv3 rfl rfl rfl rfl)

theorem archiveRecord_fields (r : Registry) (sid : String) (rec : SessionRecord)
    (fp : Option SessionState) :
    (archiveRecord r sid rec fp).activeSessions = r.activeSessions ∧
    (archiveRecord r sid rec fp).pidIndex = r.pidIndex ∧
    (archiveRecord r sid rec fp).ppidIndex = r.ppidIndex ∧
    (archiveRecord r sid rec fp).pathIndex = r.pathIndex ∧
    (archiveRecord r sid rec fp).notifyCount = r.notifyCount ∧
    (archiveRecord r sid rec fp).orphanedAgents = r.orphanedAgents := by
  unfold archiveRecord
  repeat' split
  all_goals exact ⟨rfl, rfl, rfl, rfl, rfl, rfl⟩

theorem end_inv {r : Registry} (sid : String) (fp : Option SessionState)
    (hInv : IndexConsistent r) : IndexConsistent (handleSessionEnd r sid fp) := by
  unfold handleSessionEnd
  split
  · exact inv_congr hInv rfl rfl rfl rfl
  · next rec heq =>
    obtain ⟨h1, h2, h3, h4, _, _⟩ := archiveRecord_fields (unregister r sid rec) sid rec fp
    exact inv_congr (unregister_inv hInv heq) h1 h2 h3 h4

theorem fileDeleteCore_inv {r : Registry} (f : String) (hInv : IndexConsistent r) :
    IndexConsistent (fileDeleteCore r f) := by
  unfold fileDeleteCore
  split
  · next sid hpath =>
    split
    · split
      · next rec hrec =>
        have hfp : rec.transcriptPath = f := by
          obtain ⟨rc, hact, hpa⟩ := (hInv.pathIff f sid).mp hpath
          rw [hrec] at hact
          injection hact with hh
          rw [hh]
          exact hpa
        refine inv_congr (unregister_inv hInv hrec) rfl rfl rfl ?_
        show mdel r.pathIndex f = mdel r.pathIndex rec.transcriptPath
        rw [hfp]
      · next hnone =>
        obtain ⟨rc, hact, _⟩ := (hInv.pathIff f sid).mp hpath
        rw [hnone] at hact
        cases hact
    · exact hInv
  · exact hInv

theorem fileDelete_inv {r : Registry} (f : String) (hInv : IndexConsistent r) :
    IndexConsistent (handleFileDelete r f) := by
  exact inv_congr (fileDeleteCore_inv f hInv) rfl rfl rfl rfl

theorem cleanupOne_inv {r : Registry} (fsParse : String → Option SessionState)
    (sid : String) (hInv : IndexConsistent r) :
    IndexConsistent (cleanupOne fsParse r sid) := by
  unfold cleanupOne
  split
  · exact hInv
  · next rec hrec =>
    obtain ⟨h1, h2, h3, h4, _, _⟩ :=
      archiveRecord_fields (unregister r sid rec) sid rec (fsParse rec.transcriptPath)
    exact inv_congr (unregister_inv hInv hrec) h1 h2 h3 h4

theorem cleanup_fold_inv (fsParse : String → Option SessionState) :
    ∀ (l : List String) (r : Registry), IndexConsistent r →
      IndexConsistent (l.foldl (cleanupOne fsParse) r)
  | [], _, h => h
  | sid :: tl, r, h => cleanup_fold_inv fsParse tl _ (cleanupOne_inv fsParse sid h)

theorem cleanup_inv {r : Registry} (live : Nat → Option String)
    (fsParse : String → Option SessionState) (hInv : IndexConsistent r) :
    IndexConsistent (cleanupOrphanedSessions r live fsParse) := by
  unfold cleanupOrphanedSessions
  split
  · exact cleanup_fold_inv fsParse _ r hInv
  · exact inv_congr (cleanup_fold_inv fsParse (orphanedIds r live) r hInv) rfl rfl rfl rfl

theorem preTool_inv {r : Registry} (ev : ToolHookEvent) (now : Int)
    (hInv : IndexConsistent r) : IndexConsistent (handlePreToolUse r ev now) := by
  unfold handlePreToolUse
  split
  · exact hInv
  · next rec hrec =>
    exact inv_congr
      (update_record_inv (preToolRecord rec ev now) hrec rfl rfl rfl rfl hInv)
      rfl rfl rfl rfl

theorem postTool_inv {r : Registry} (ev : ToolHookEvent) (now : Int)
    (hInv : IndexConsistent r) : IndexConsistent (handlePostToolUse r ev now) := by
  unfold handlePostToolUse
  split
  · exact hInv
  · next rec hrec =>
    exact inv_congr
      (update_record_inv (postToolRecord rec ev now) hrec rfl rfl rfl rfl hInv)
      rfl rfl rfl rfl

/-! ## Invariants over event sequences -/

/-- The well-formedness condition on a `SessionStart` event relative to the
state it is applied to: a non-empty fresh session id, and any active claimant
of its transcript path collides on pid or ppid (and is therefore evicted). -/
def okStart (r : Registry) : REvent → Prop
  | .start ev _ _ _ =>
      ev.sessionId ≠ "" ∧ mget r.activeSessions ev.sessionId = none ∧
      ∀ sid rec, mget r.activeSessions sid = some rec →
        rec.transcriptPath = ev.transcriptPath → rec.pid = ev.pid ∨ rec.ppid = ev.ppid
  | _ => True

/-- `okStart` holding along a whole event sequence. -/
def okSeq (r : Registry) : List REvent → Prop
  | [] => True
  | e :: es => okStart r e ∧ okSeq (step r e) es

theorem step_inv {r : Registry} {e : REvent} (hInv : IndexConsistent r)
    (hok : okStart r e) : IndexConsistent (step r e) := by
  cases e with
  | start ev now mt pr => exact start_inv now mt pr hInv hok.1 hok.2.1 hok.2.2
  | sessionEnd sid fp => exact end_inv sid fp hInv
  | fileChange f mt pr => exact parse_inv f mt pr hInv
  | fileDelete f => exact fileDelete_inv f hInv
  | preTool ev now => exact preTool_inv ev now hInv
  | postTool ev now => exact postTool_inv ev now hInv
  | cleanup live fsParse => exact cleanup_inv live fsParse hInv

theorem initRegistry_inv : IndexConsistent initRegistry := by
  constructor <;> intros <;> simp_all [initRegistry, mget]

theorem runFrom_inv : ∀ (evs : List REvent) (r : Registry),
    IndexConsistent r → okSeq r evs → IndexConsistent (evs.foldl step r)
  | [], _, h, _ => h
  | _ :: es, r, h, hok => runFrom_inv es (step r _) (step_inv h hok.1) hok.2

/-! ## Active/archived exclusivity is preserved (under the same provisos) -/

/-- Disjointness transfers along any operation that can only shrink (or
rewrite in place) the two maps. -/
theorem excl_mono {r r' : Registry} (hEx : ActiveArchivedDisjoint r)
    (hact : ∀ sid rc, mget r'.activeSessions sid = some rc →
      ∃ rc₀, mget r.activeSessions sid = some rc₀)
    (hall : ∀ sid st, mget r'.allSessions sid = some st →
      ∃ st₀, mget r.allSessions sid = some st₀) :
    ActiveArchivedDisjoint r' := by
  intro sid
  cases h : mget r'.activeSessions sid with
  | none => exact Or.inl rfl
  | some rc =>
    cases h2 : mget r'.allSessions sid with
    | none => exact Or.inr rfl
    | some st =>
      obtain ⟨rc₀, h₀⟩ := hact sid rc h
      obtain ⟨st₀, h₂⟩ := hall sid st h2
      rcases hEx sid with hh | hh
      · rw [hh] at h₀
        cases h₀
      · rw [hh] at h₂
        cases h₂

theorem evictId_allSessions (r : Registry) (nsid : String) (ex : Option String) :
    (evictId r nsid ex).allSessions = r.allSessions := by
  cases ex with
  | none => rfl
  | some i =>
    simp only [evictId]
    split
    · split <;> rfl
    · rfl

theorem registerRecord_excl {r : Registry} {record : SessionRecord}
    (hEx : ActiveArchivedDisjoint r)
    (harch : mget r.allSessions record.sessionId = none) :
    ActiveArchivedDisjoint (registerRecord r record) := by
  intro sid
  by_cases hs : sid = record.sessionId
  · subst hs
    exact Or.inr harch
  · have hact : mget (registerRecord r record).activeSessions sid =
        mget r.activeSessions sid := by
      show mget (mset r.activeSessions record.sessionId record) sid = _
      rw [mget_mset, if_neg hs]
    rcases hEx sid with h | h
    · exact Or.inl (hact.trans h)
    · exact Or.inr h

theorem archive_all_lookup {r : Registry} {sid : String} {rec : SessionRecord}
    {fp : Option SessionState} {s : String} (hs : s ≠ sid) :
    mget (archiveRecord r sid rec fp).allSessions s = mget r.allSessions s := by
  unfold archiveRecord
  split
  · show mget (mset r.allSessions sid _) s = _
    rw [mget_mset, if_neg hs]
  · split
    · split
      · show mget (mset r.allSessions sid _) s = _
        rw [mget_mset, if_neg hs]
      · rfl
    · rfl

theorem archiveRecord_excl {r : Registry} {sid : String} {rec : SessionRecord}
    {fp : Option SessionState} (hEx : ActiveArchivedDisjoint r)
    (hnone : mget r.activeSessions sid = none) :
    ActiveArchivedDisjoint (archiveRecord r sid rec fp) := by
  intro s
  have hact : (archiveRecord r sid rec fp).activeSessions = r.activeSessions :=
    (archiveRecord_fields r sid rec fp).1
  by_cases hs : s = sid
  · subst hs
    exact Or.inl (by rw [hact]; exact hnone)
  · rcases hEx s with h | h
    · exact Or.inl (by rw [hact]; exact h)
    · exact Or.inr ((archive_all_lookup hs).trans h)

theorem unregister_active_none {r : Registry} (sid : String) (rec : SessionRecord) :
    mget (unregister r sid rec).activeSessions sid = none := by
  show mget (mdel r.activeSessions sid) sid = none
  rw [mget_mdel, if_pos rfl]

theorem unregister_excl {r : Registry} {sid : String} {rec : SessionRecord}
    (hEx : ActiveArchivedDisjoint r) :
    ActiveArchivedDisjoint (unregister r sid rec) := by
  refine excl_mono hEx ?_ (fun s st h => ⟨st, h⟩)
  intro s rc h
  have h' : mget (mdel r.activeSessions sid) s = some rc := h
  rw [mget_mdel] at h'
  by_cases hs : s = sid
  · rw [if_pos hs] at h'
    cases h'
  · rw [if_neg hs] at h'
    exact ⟨rc, h'⟩

theorem end_excl {r : Registry} (sid : String) (fp : Option SessionState)
    (hEx : ActiveArchivedDisjoint r) :
    ActiveArchivedDisjoint (handleSessionEnd r sid fp) := by
  unfold handleSessionEnd
  split
  · exact excl_mono hEx (fun s rc h => ⟨rc, h⟩) (fun s st h => ⟨st, h⟩)
  · next rec heq =>
    have h1 := @archiveRecord_excl (unregister r sid rec) sid rec fp
      (unregister_excl hEx) (unregister_active_none sid rec)
    exact excl_mono h1 (fun s rc h => ⟨rc, h⟩) (fun s st h => ⟨st, h⟩)

theorem applyParsedState_excl {r : Registry} {f : String} {st : SessionState}
    (hInv : IndexConsistent r) (hEx : ActiveArchivedDisjoint r) :
    ActiveArchivedDisjoint (applyParsedState r f st) := by
  unfold applyParsedState
  split
  · next rec hrec =>
    refine excl_mono hEx ?_ (fun s st0 h => ⟨st0, h⟩)
    intro s rc h
    have h' : mget (mset r.activeSessions (claimedSessionId r f st)
        { rec with state := some st }) s = some rc := h
    rw [mget_mset] at h'
    by_cases hs : s = claimedSessionId r f st
    · exact ⟨rec, hs ▸ hrec⟩
    · rw [if_neg hs] at h'
      exact ⟨rc, h'⟩
  · next hnone =>
    have hactnone : mget r.activeSessions st.sessionId = none := by
      cases hpi : mget r.pathIndex f with
      | none =>
        simp only [claimedSessionId, hpi] at hnone
        exact hnone
      | some s0 =>
        by_cases hs0 : s0 = ""
        · simp only [claimedSessionId, hpi, hs0, if_pos] at hnone
          exact hnone
        · simp only [claimedSessionId, hpi] at hnone
          rw [if_neg hs0] at hnone
          obtain ⟨rc, hact, _⟩ := (hInv.pathIff f s0).mp hpi
          rw [hnone] at hact
          cases hact
    intro s
    by_cases hs : s = st.sessionId
    · subst hs
      exact Or.inl hactnone
    · rcases hEx s with h | h
      · exact Or.inl h
      · refine Or.inr ?_
        show mget (mset r.allSessions st.sessionId st) s = none
        rw [mget_mset, if_neg hs]
        exact h

theorem parse_excl {r : Registry} (f : String) (mt : Option Nat)
    (pr : Option SessionState) (hInv : IndexConsistent r)
    (hEx : ActiveArchivedDisjoint r) :
    ActiveArchivedDisjoint (parseAndUpdateSession r f mt pr) := by
  cases mt with
  | none => exact hEx
  | some m =>
    simp only [parseAndUpdateSession]
    split
    · exact hEx
    · cases pr with
      | none => exact excl_mono hEx (fun s rc h => ⟨rc, h⟩) (fun s st h => ⟨st, h⟩)
      | some st =>
        obtain ⟨ha, hall, hpi, hppi, hpai, _, _⟩ :=
          updateOrphanedAgents_fields
            { r with fileLastModified := mset r.fileLastModified f m } f st
        have hInv2 : IndexConsistent
            (updateOrphanedAgents
              { r with fileLastModified := mset r.fileLastModified f m } f st) :=
          inv_congr hInv ha hpi hppi hpai
        have hEx2 : ActiveArchivedDisjoint
            (updateOrphanedAgents
              { r with fileLastModified := mset r.fileLastModified f m } f st) := by
          refine excl_mono hEx ?_ ?_
          · intro s rc h
            rw [ha] at h
            exact ⟨rc, h⟩
          · intro s st0 h
            rw [hall] at h
            exact ⟨st0, h⟩
        exact applyParsedState_excl hInv2 hEx2

theorem fileDelete_excl {r : Registry} (f : String) (hEx : ActiveArchivedDisjoint r) :
    ActiveArchivedDisjoint (handleFileDelete r f) := by
  have hcore : ActiveArchivedDisjoint (fileDeleteCore r f) := by
    unfold fileDeleteCore
    split
    · split
      · split
        · next rec hrec =>
          refine excl_mono hEx ?_ ?_
          · intro s rc h
            have h' : mget (mdel r.activeSessions _) s = some rc := h
            rw [mget_mdel] at h'
            split at h'
            · cases h'
            · exact ⟨rc, h'⟩
          · intro s st h
            have h' : mget (mdel r.allSessions _) s = some st := h
            rw [mget_mdel] at h'
            split at h'
            · cases h'
            · exact ⟨st, h'⟩
        · refine excl_mono hEx (fun s rc h => ⟨rc, h⟩) ?_
          intro s st h
          have h' : mget (mdel r.allSessions _) s = some st := h
          rw [mget_mdel] at h'
          split at h'
          · cases h'
          · exact ⟨st, h'⟩
      · exact hEx
    · exact hEx
  exact excl_mono hcore (fun s rc h => ⟨rc, h⟩) (fun s st h => ⟨st, h⟩)

theorem preTool_excl {r : Registry} (ev : ToolHookEvent) (now : Int)
    (hEx : ActiveArchivedDisjoint r) :
    ActiveArchivedDisjoint (handlePreToolUse r ev now) := by
  unfold handlePreToolUse
  split
  · exact hEx
  · next rec hrec =>
    refine excl_mono hEx ?_ (fun s st h => ⟨st, h⟩)
    intro s rc h
    have h' : mget (mset r.activeSessions ev.sessionId (preToolRecord rec ev now)) s =
        some rc := h
    rw [mget_mset] at h'
    by_cases hs : s = ev.sessionId
    · exact ⟨rec, hs ▸ hrec⟩
    · rw [if_neg hs] at h'
      exact ⟨rc, h'⟩

theorem postTool_excl {r : Registry} (ev : ToolHookEvent) (now : Int)
    (hEx : ActiveArchivedDisjoint r) :
    ActiveArchivedDisjoint (handlePostToolUse r ev now) := by
  unfold handlePostToolUse
  split
  · exact hEx
  · next rec hrec =>
    refine excl_mono hEx ?_ (fun s st h => ⟨st, h⟩)
    intro s rc h
    have h' : mget (mset r.activeSessions ev.sessionId (postToolRecord rec ev now)) s =
        some rc := h
    rw [mget_mset] at h'
    by_cases hs : s = ev.sessionId
    · exact ⟨rec, hs ▸ hrec⟩
    · rw [if_neg hs] at h'
      exact ⟨rc, h'⟩

theorem cleanupOne_excl {r : Registry} (fsParse : String → Option SessionState)
    (sid : String) (hEx : ActiveArchivedDisjoint r) :
    ActiveArchivedDisjoint (cleanupOne fsParse r sid) := by
  unfold cleanupOne
  split
  · exact hEx
  · next rec hrec =>
    exact archiveRecord_excl (unregister_excl hEx) (unregister_active_none sid rec)

theorem cleanup_fold_excl (fsParse : String → Option SessionState) :
    ∀ (l : List String) (r : Registry), ActiveArchivedDisjoint r →
      ActiveArchivedDisjoint (l.foldl (cleanupOne fsParse) r)
  | [], _, h => h
  | sid :: tl, r, h => cleanup_fold_excl fsParse tl _ (cleanupOne_excl fsParse sid h)

theorem cleanup_excl {r : Registry} (live : Nat → Option String)
    (fsParse : String → Option SessionState) (hEx : ActiveArchivedDisjoint r) :
    ActiveArchivedDisjoint (cleanupOrphanedSessions r live fsParse) := by
  unfold cleanupOrphanedSessions
  split
  · exact cleanup_fold_excl fsParse _ r hEx
  · exact excl_mono (cleanup_fold_excl fsParse (orphanedIds r live) r hEx)
      (fun s rc h => ⟨rc, h⟩) (fun s st h => ⟨st, h⟩)

/-- `start_inv`, factored: index consistency right after the store-and-index
block of `handleSessionStart`. -/
theorem startRegister_inv {r : Registry} {ev : HookEvent} (now : Int)
    (hInv : IndexConsistent r)
    (hsid : ev.sessionId ≠ "")
    (hfresh : mget r.activeSessions ev.sessionId = none)
    (hpath : ∀ sid rec, mget r.activeSessions sid = some rec →
      rec.transcriptPath = ev.transcriptPath → rec.pid = ev.pid ∨ rec.ppid = ev.ppid) :
    IndexConsistent
      (registerRecord (startEvict r ev) (startRecord (startEvict r ev) ev now)) := by
  have hparts := start_inv_parts now hInv hsid hfresh hpath
  exact registerRecord_inv hparts.1 hsid hparts.2.1 hparts.2.2.1 hparts.2.2.2.1
    hparts.2.2.2.2

theorem start_excl {r : Registry} {ev : HookEvent} (now : Int) (mt : Option Nat)
    (pr : Option SessionState)
    (hInv : IndexConsistent r) (hEx : ActiveArchivedDisjoint r)
    (hsid : ev.sessionId ≠ "")
    (hfresh : mget r.activeSessions ev.sessionId = none)
    (hpath : ∀ sid rec, mget r.activeSessions sid = some rec →
      rec.transcriptPath = ev.transcriptPath → rec.pid = ev.pid ∨ rec.ppid = ev.ppid)
    (harch : mget r.allSessions ev.sessionId = none) :
    ActiveArchivedDisjoint (handleSessionStart r ev now mt pr) := by
  have hInv3 := startRegister_inv now hInv hsid hfresh hpath
  have hallEq : (startEvict r ev).allSessions = r.allSessions := by
    unfold startEvict
    rw [evictId_allSessions, evictId_allSessions]
  have hEx2 : ActiveArchivedDisjoint (startEvict r ev) := by
    refine excl_mono hEx ?_ ?_
    · intro s rc h
      exact ⟨rc, evictId_active_subset (evictId_active_subset h)⟩
    · intro s st h
      rw [hallEq] at h
      exact ⟨st, h⟩
  have harch2 : mget (startEvict r ev).allSessions ev.sessionId = none := by
    rw [hallEq]
    exact harch
  have hEx3 : ActiveArchivedDisjoint
      (registerRecord (startEvict r ev) (startRecord (startEvict r ev) ev now)) :=
    registerRecord_excl hEx2 harch2
  have hEx4 : ActiveArchivedDisjoint
      { registerRecord (startEvict r ev) (startRecord (startEvict r ev) ev now) with
        fileLastModified :=
          mdel (registerRecord (startEvict r ev)
            (startRecord (startEvict r ev) ev now)).fileLastModified ev.transcriptPath } :=
    excl_mono hEx3 (fun s rc h => ⟨rc, h⟩) (fun s st h => ⟨st, h⟩)
  exact parse_excl ev.transcriptPath mt pr (inv_congr hInv3 rfl rfl rfl rfl) hEx4

/-- The archived map must not already hold the starting session's id (the code
reads the stale archived entry as resumed-session state but never removes
it). -/
def okStartArchived (r : Registry) : REvent → Prop
  | .start ev _ _ _ => mget r.allSessions ev.sessionId = none
  | _ => True

theorem step_excl {r : Registry} {e : REvent} (hInv : IndexConsistent r)
    (hEx : ActiveArchivedDisjoint r) (hok : okStart r e)
    (hok2 : okStartArchived r e) : ActiveArchivedDisjoint (step r e) := by
  cases e with
  | start ev now mt pr => exact start_excl now mt pr hInv hEx hok.1 hok.2.1 hok.2.2 hok2
  | sessionEnd sid fp => exact end_excl sid fp hEx
  | fileChange f mt pr => exact parse_excl f mt pr hInv hEx
  | fileDelete f => exact fileDelete_excl f hEx
  | preTool ev now => exact preTool_excl ev now hEx
  | postTool ev now => exact postTool_excl ev now hEx
  | cleanup live fsParse => exact cleanup_excl live fsParse hEx

/-- `okStart` plus `okStartArchived` holding along a whole event sequence. -/
def okSeqFull (r : Registry) : List REvent → Prop
  | [] => True
  | e :: es => okStart r e ∧ okStartArchived r e ∧ okSeqFull (step r e) es

theorem initRegistry_excl : ActiveArchivedDisjoint initRegistry := fun _ => Or.inl rfl

theorem runFrom_excl : ∀ (evs : List REvent) (r : Registry),
    IndexConsistent r → ActiveArchivedDisjoint r → okSeqFull r evs →
    ActiveArchivedDisjoint (evs.foldl step r)
  | [], _, _, hEx, _ => hEx
  | _ :: es, r, hInv, hEx, hok =>
    runFrom_excl es (step r _) (step_inv hInv hok.1)
      (step_excl hInv hEx hok.1 hok.2.1) hok.2.2

/-! ## At most one active record per pid / ppid (claim C2)

`PidOwned` is preserved by every well-stamped `SessionStart` with no side
condition beyond a non-empty session id, because the eviction loop always
removes the indexed claimant of the incoming pid and ppid. -/

theorem pidOwned_init : PidOwned initRegistry := by
  intro sid rec h
  simp [initRegistry, mget] at h

theorem pidOwned_congr {r r' : Registry} (h : PidOwned r)
    (ha : r'.activeSessions = r.activeSessions) (hp : r'.pidIndex = r.pidIndex)
    (hpp : r'.ppidIndex = r.ppidIndex) : PidOwned r' := by
  intro sid rec hh
  rw [ha] at hh
  rw [hp, hpp]
  exact h sid rec hh

theorem pidOwned_parse {r : Registry} (f : String) (mt : Option Nat)
    (pr : Option SessionState) (hP : PidOwned r) :
    PidOwned (parseAndUpdateSession r f mt pr) := by
  obtain ⟨hpi, hppi, _⟩ := parse_indexes r f mt pr
  rcases parse_active_shape r f mt pr with h | ⟨key, rec, st, hrec, h⟩
  · intro sid rc hh
    rw [h] at hh
    rw [hpi, hppi]
    exact hP sid rc hh
  · intro sid rc hh
    rw [h, mget_mset] at hh
    rw [hpi, hppi]
    by_cases hs : sid = key
    · subst hs
      rw [if_pos rfl] at hh
      injection hh with hh2
      subst hh2
      exact hP sid rec hrec
    · rw [if_neg hs] at hh
      exact hP sid rc hh

theorem pidOwned_evictId {r : Registry} {nsid : String} {ex : Option String}
    (hP : PidOwned r) : PidOwned (evictId r nsid ex) := by
  cases ex with
  | none => exact hP
  | some i =>
    simp only [evictId]
    split
    · split
      · next old heq =>
        intro sid rc h
        have h' : mget (mdel r.activeSessions i) sid = some rc := h
        rw [mget_mdel] at h'
        by_cases hs : sid = i
        · rw [if_pos hs] at h'
          cases h'
        · rw [if_neg hs] at h'
          obtain ⟨hne, hpid, hppid⟩ := hP sid rc h'
          obtain ⟨_, hpidOld, hppidOld⟩ := hP i old heq
          refine ⟨hne, ?_, ?_⟩
          · show mget (mdel r.pidIndex old.pid) rc.pid = some sid
            rw [mget_mdel]
            have hpne : rc.pid ≠ old.pid := by
              intro hpe
              rw [hpe, hpidOld] at hpid
              injection hpid with hh
              exact hs hh.symm
            rw [if_neg hpne]
            exact hpid
          · show mget (mdel r.ppidIndex old.ppid) rc.ppid = some sid
            rw [mget_mdel]
            have hpne : rc.ppid ≠ old.ppid := by
              intro hpe
              rw [hpe, hppidOld] at hppid
              injection hppid with hh
              exact hs hh.symm
            rw [if_neg hpne]
            exact hppid
      · exact hP
    · exact hP

theorem pidOwned_start {r : Registry} {ev : HookEvent} (now : Int) (mt : Option Nat)
    (pr : Option SessionState) (hP : PidOwned r) (hsid : ev.sessionId ≠ "") :
    PidOwned (handleSessionStart r ev now mt pr) := by
  have hP1 : PidOwned (evictId r ev.sessionId (mget r.pidIndex ev.pid)) :=
    pidOwned_evictId hP
  have hP2 : PidOwned (startEvict r ev) := pidOwned_evictId hP1
  have hsub2 : ∀ {s rc}, mget (startEvict r ev).activeSessions s = some rc →
      mget r.activeSessions s = some rc :=
    fun h => evictId_active_subset (evictId_active_subset h)
  have hP3 : PidOwned
      (registerRecord (startEvict r ev) (startRecord (startEvict r ev) ev now)) := by
    intro sid rc h
    have h' : mget (mset (startEvict r ev).activeSessions ev.sessionId
        (startRecord (startEvict r ev) ev now)) sid = some rc := h
    rw [mget_mset] at h'
    by_cases hs : sid = ev.sessionId
    · subst hs
      rw [if_pos rfl] at h'
      injection h' with hh
      subst hh
      refine ⟨hsid, ?_, ?_⟩
      · show mget (mset (startEvict r ev).pidIndex ev.pid ev.sessionId) ev.pid = _
        rw [mget_mset, if_pos rfl]
      · show mget (mset (startEvict r ev).ppidIndex ev.ppid ev.sessionId) ev.ppid = _
        rw [mget_mset, if_pos rfl]
    · rw [if_neg hs] at h'
      obtain ⟨hne, hpid2, hppid2⟩ := hP2 sid rc h'
      have hr : mget r.activeSessions sid = some rc := hsub2 h'
      obtain ⟨_, hpidr, hppidr⟩ := hP sid rc hr
      have hpidne : rc.pid ≠ ev.pid := by
        intro hpe
        have hidx : mget r.pidIndex ev.pid = some sid := by
          rw [← hpe]
          exact hpidr
        have hgone : mget (evictId r ev.sessionId (mget r.pidIndex ev.pid)).activeSessions
            sid = none := by
          rw [hidx]
          exact evictId_evicts hne hs hr
        have h1 : mget (evictId r ev.sessionId (mget r.pidIndex ev.pid)).activeSessions
            sid = some rc := evictId_active_subset h'
        rw [hgone] at h1
        cases h1
      have hppidne : rc.ppid ≠ ev.ppid := by
        intro hpe
        have hidx : mget r.ppidIndex ev.ppid = some sid := by
          rw [← hpe]
          exact hppidr
        have h1 : mget (evictId r ev.sessionId (mget r.pidIndex ev.pid)).activeSessions
            sid = some rc := evictId_active_subset h'
        have hgone : mget (startEvict r ev).activeSessions sid = none := by
          show mget (evictId (evictId r ev.sessionId (mget r.pidIndex ev.pid))
            ev.sessionId (mget r.ppidIndex ev.ppid)).activeSessions sid = none
          rw [hidx]
          exact evictId_evicts hne hs h1
        rw [hgone] at h'
        cases h'
      refine ⟨hne, ?_, ?_⟩
      · show mget (mset (startEvict r ev).pidIndex ev.pid ev.sessionId) rc.pid = _
        rw [mget_mset, if_neg hpidne]
        exact hpid2
      · show mget (mset (startEvict r ev).ppidIndex ev.ppid ev.sessionId) rc.ppid = _
        rw [mget_mset, if_neg hppidne]
        exact hppid2
  exact pidOwned_parse ev.transcriptPath mt pr (pidOwned_congr hP3 rfl rfl rfl)

/-- A `SessionStart` event carrying a non-empty session id. -/
def isStartNE : REvent → Prop
  | .start ev _ _ _ => ev.sessionId ≠ ""
  | _ => False

theorem runFrom_pidOwned : ∀ (evs : List REvent) (r : Registry), PidOwned r →
    (∀ e ∈ evs, isStartNE e) → PidOwned (evs.foldl step r)
  | [], _, h, _ => h
  | e :: es, r, h, hall => by
    have h1 : isStartNE e := hall e (List.mem_cons_self e es)
    have hrest : ∀ e' ∈ es, isStartNE e' := fun e' he' => hall e' (List.mem_cons_of_mem e he')
    cases e with
    | start ev now mt pr =>
      exact runFrom_pidOwned es _ (pidOwned_start now mt pr h h1) hrest
    | sessionEnd sid fp => exact h1.elim
    | fileChange f mt pr => exact h1.elim
    | fileDelete f => exact h1.elim
    | preTool ev now => exact h1.elim
    | postTool ev now => exact h1.elim
    | cleanup live fsParse => exact h1.elim

/-- `PidOwned` forces pid uniqueness (and ppid uniqueness) across distinct
active records, because a lookup table holds one value per key. -/
theorem pidOwned_unique {r : Registry} (hP : PidOwned r) :
    ∀ sid1 rec1 sid2 rec2, mget r.activeSessions sid1 = some rec1 →
      mget r.activeSessions sid2 = some rec2 → rec1.pid = rec2.pid → sid1 = sid2 := by
  intro sid1 rec1 sid2 rec2 h1 h2 hpe
  have ha := (hP sid1 rec1 h1).2.1
  have hb := (hP sid2 rec2 h2).2.1
  rw [hpe] at ha
  rw [ha] at hb
  exact Option.some.inj hb

/-! ## Bounded tool history (claim C5) -/

theorem rtb_of {r r' : Registry} (hB : RecentToolsBounded r)
    (hact : ∀ sid rc, mget r'.activeSessions sid = some rc →
      rc.recentTools.length ≤ MAX_RECENT_TOOLS ∨
      ∃ sid₀ rc₀, mget r.activeSessions sid₀ = some rc₀ ∧
        rc.recentTools = rc₀.recentTools) :
    RecentToolsBounded r' := by
  intro sid rc hh
  rcases hact sid rc hh with hb | ⟨sid₀, rc₀, h₀, he⟩
  · exact hb
  · rw [he]
    exact hB sid₀ rc₀ h₀

theorem boundedRecentTools_length (entry : RecentTool) (rts : List RecentTool)
    (h : rts.length ≤ MAX_RECENT_TOOLS) :
    (boundedRecentTools entry rts).length ≤ MAX_RECENT_TOOLS := by
  unfold boundedRecentTools
  split
  · next hgt =>
    rw [List.length_dropLast]
    simp only [List.length_cons]
    omega
  · next hle =>
    simp only [List.length_cons] at hle ⊢
    omega

theorem rtb_init : RecentToolsBounded initRegistry := by
  intro sid rec h
  simp [initRegistry, mget] at h

theorem rtb_step {r : Registry} (e : REvent) (hB : RecentToolsBounded r) :
    RecentToolsBounded (step r e) := by
  cases e with
  | start ev now mt pr =>
    have hB1 : RecentToolsBounded (evictId r ev.sessionId (mget r.pidIndex ev.pid)) :=
      rtb_of hB (fun sid rc h => Or.inr ⟨sid, rc, evictId_active_subset h, rfl⟩)
    have hB2 : RecentToolsBounded (startEvict r ev) :=
      rtb_of hB1 (fun sid rc h => Or.inr ⟨sid, rc, evictId_active_subset h, rfl⟩)
    have hB3 : RecentToolsBounded
        (registerRecord (startEvict r ev) (startRecord (startEvict r ev) ev now)) := by
      refine rtb_of hB2 ?_
      intro sid rc h
      have h' : mget (mset (startEvict r ev).activeSessions ev.sessionId
          (startRecord (startEvict r ev) ev now)) sid = some rc := h
      rw [mget_mset] at h'
      by_cases hs : sid = ev.sessionId
      · rw [if_pos hs] at h'
        injection h' with hh
        subst hh
        exact Or.inl (by simp [startRecord, MAX_RECENT_TOOLS])
      · rw [if_neg hs] at h'
        exact Or.inr ⟨sid, rc, h', rfl⟩
    have hB4 : RecentToolsBounded
        { registerRecord (startEvict r ev) (startRecord (startEvict r ev) ev now) with
          fileLastModified :=
            mdel (registerRecord (startEvict r ev)
              (startRecord (startEvict r ev) ev now)).fileLastModified ev.transcriptPath } :=
      rtb_of hB3 (fun sid rc h => Or.inr ⟨sid, rc, h, rfl⟩)
    refine rtb_of hB4 ?_
    intro sid rc h
    have h2 : mget (parseAndUpdateSession
        { registerRecord (startEvict r ev) (startRecord (startEvict r ev) ev now) with
          fileLastModified :=
            mdel (registerRecord (startEvict r ev)
              (startRecord (startEvict r ev) ev now)).fileLastModified ev.transcriptPath }
        ev.transcriptPath mt pr).activeSessions sid = some rc := h
    rcases parse_active_shape
        { registerRecord (startEvict r ev) (startRecord (startEvict r ev) ev now) with
          fileLastModified :=
            mdel (registerRecord (startEvict r ev)
              (startRecord (startEvict r ev) ev now)).fileLastModified ev.transcriptPath }
        ev.transcriptPath mt pr with hsh | ⟨key, rec, st, hrec, hsh⟩
    · rw [hsh] at h2
      exact Or.inr ⟨sid, rc, h2, rfl⟩
    · rw [hsh, mget_mset] at h2
      by_cases hs : sid = key
      · rw [if_pos hs] at h2
        injection h2 with hh
        subst hh
        exact Or.inr ⟨key, rec, hrec, rfl⟩
      · rw [if_neg hs] at h2
        exact Or.inr ⟨sid, rc, h2, rfl⟩
  | sessionEnd sid fp =>
    simp only [step]
    unfold handleSessionEnd
    split
    · exact rtb_of hB (fun s rc h => Or.inr ⟨s, rc, h, rfl⟩)
    · next rec heq =>
      refine rtb_of hB ?_
      intro s rc h
      have hact : (archiveRecord (unregister r sid rec) sid rec fp).activeSessions =
          (unregister r sid rec).activeSessions :=
        (archiveRecord_fields (unregister r sid rec) sid rec fp).1
      have h' : mget (mdel r.activeSessions sid) s = some rc := by
        have hh : mget (archiveRecord (unregister r sid rec) sid rec fp).activeSessions s =
            some rc := h
        rw [hact] at hh
        exact hh
      rw [mget_mdel] at h'
      by_cases hs : s = sid
      · rw [if_pos hs] at h'
        cases h'
      · rw [if_neg hs] at h'
        exact Or.inr ⟨s, rc, h', rfl⟩
  | fileChange f mt pr =>
    simp only [step]
    refine rtb_of hB ?_
    intro sid rc h
    rcases parse_active_shape r f mt pr with hsh | ⟨key, rec, st, hrec, hsh⟩
    · rw [hsh] at h
      exact Or.inr ⟨sid, rc, h, rfl⟩
    · rw [hsh, mget_mset] at h
      by_cases hs : sid = key
      · rw [if_pos hs] at h
        injection h with hh
        subst hh
        exact Or.inr ⟨key, rec, hrec, rfl⟩
      · rw [if_neg hs] at h
        exact Or.inr ⟨sid, rc, h, rfl⟩
  | fileDelete f =>
    simp only [step]
    refine rtb_of hB ?_
    intro sid rc h
    unfold handleFileDelete at h
    have h' : mget (fileDeleteCore r f).activeSessions sid = some rc := h
    unfold fileDeleteCore at h'
    split at h'
    · split at h'
      · split at h'
        · next rec hrec =>
          have h'' : mget (mdel r.activeSessions _) sid = some rc := h'
          rw [mget_mdel] at h''
          split at h''
          · cases h''
          · exact Or.inr ⟨sid, rc, h'', rfl⟩
        · exact Or.inr ⟨sid, rc, h', rfl⟩
      · exact Or.inr ⟨sid, rc, h', rfl⟩
    · exact Or.inr ⟨sid, rc, h', rfl⟩
  | preTool ev now =>
    simp only [step]
    refine rtb_of hB ?_
    intro sid rc h
    unfold handlePreToolUse at h
    split at h
    · exact Or.inr ⟨sid, rc, h, rfl⟩
    · next rec hrec =>
      have h' : mget (mset r.activeSessions ev.sessionId (preToolRecord rec ev now)) sid =
          some rc := h
      rw [mget_mset] at h'
      by_cases hs : sid = ev.sessionId
      · rw [if_pos hs] at h'
        injection h' with hh
        subst hh
        exact Or.inr ⟨ev.sessionId, rec, hrec, rfl⟩
      · rw [if_neg hs] at h'
        exact Or.inr ⟨sid, rc, h', rfl⟩
  | postTool ev now =>
    simp only [step]
    refine rtb_of hB ?_
    intro sid rc h
    unfold handlePostToolUse at h
    split at h
    · exact Or.inr ⟨sid, rc, h, rfl⟩
    · next rec hrec =>
      have h' : mget (mset r.activeSessions ev.sessionId (postToolRecord rec ev now)) sid =
          some rc := h
      rw [mget_mset] at h'
      by_cases hs : sid = ev.sessionId
      · rw [if_pos hs] at h'
        injection h' with hh
        subst hh
        exact Or.inl (boundedRecentTools_length _ _ (hB ev.sessionId rec hrec))
      · rw [if_neg hs] at h'
        exact Or.inr ⟨sid, rc, h', rfl⟩
  | cleanup live fsParse =>
    have hfold : ∀ (l : List String) (r0 : Registry), RecentToolsBounded r0 →
        RecentToolsBounded (l.foldl (cleanupOne fsParse) r0) := by
      intro l
      induction l with
      | nil => exact fun r0 h => h
      | cons sid tl ih =>
        intro r0 h0
        refine ih _ ?_
        unfold cleanupOne
        split
        · exact h0
        · next rec heq =>
          refine rtb_of h0 ?_
          intro s rc h
          have hact : (archiveRecord (unregister r0 sid rec) sid rec
              (fsParse rec.transcriptPath)).activeSessions =
              (unregister r0 sid rec).activeSessions :=
            (archiveRecord_fields (unregister r0 sid rec) sid rec
              (fsParse rec.transcriptPath)).1
          have h' : mget (mdel r0.activeSessions sid) s = some rc := by
            have hh : mget (archiveRecord (unregister r0 sid rec) sid rec
                (fsParse rec.transcriptPath)).activeSessions s = some rc := h
            rw [hact] at hh
            exact hh
          rw [mget_mdel] at h'
          split at h'
          · cases h'
          · exact Or.inr ⟨s, rc, h', rfl⟩
    simp only [step]
    unfold cleanupOrphanedSessions
    split
    · exact hfold _ r hB
    · exact rtb_of (hfold (orphanedIds r live) r hB) (fun s rc h => Or.inr ⟨s, rc, h, rfl⟩)

theorem runFrom_rtb : ∀ (evs : List REvent) (r : Registry), RecentToolsBounded r →
    RecentToolsBounded (evs.foldl step r)
  | [], _, h => h
  | e :: es, r, h => runFrom_rtb es (step r e) (rtb_step e h)

/-! ## Handler characterizations -/

theorem preTool_found {r : Registry} {ev : ToolHookEvent} (now : Int)
    {rec : SessionRecord} (hrec : mget r.activeSessions ev.sessionId = some rec) :
    handlePreToolUse r ev now =
    notify { r with activeSessions := mset r.activeSessions ev.sessionId (preToolRecord rec ev now) } := by
  unfold handlePreToolUse
  rw [hrec]

theorem postTool_found {r : Registry} {ev : ToolHookEvent} (now : Int)
    {rec : SessionRecord} (hrec : mget r.activeSessions ev.sessionId = some rec) :
    handlePostToolUse r ev now =
    notify { r with activeSessions := mset r.activeSessions ev.sessionId (postToolRecord rec ev now) } := by
  unfold handlePostToolUse
  rw [hrec]

theorem take_append_take {α : Type} (n : Nat) (A B : List α) :
    List.take n (A ++ List.take n B) = List.take n (A ++ B) := by
  rw [List.take_append_eq_append_take, List.take_append_eq_append_take, List.take_take]
  congr 1
  rw [Nat.min_eq_left (Nat.sub_le n _)]

/-- `unshift` + conditional `pop` is exactly "prepend, keep the newest
`MAX_RECENT_TOOLS`", provided the list was within capacity before. -/
theorem boundedRecentTools_eq_take (entry : RecentTool) (rts : List RecentTool)
    (h : rts.length ≤ MAX_RECENT_TOOLS) :
    boundedRecentTools entry rts = List.take MAX_RECENT_TOOLS (entry :: rts) := by
  unfold boundedRecentTools
  split
  · next hgt =>
    rw [List.dropLast_eq_take]
    congr 1
    simp only [List.length_cons] at hgt ⊢
    omega
  · next hle =>
    rw [List.take_of_length_le]
    simp only [List.length_cons] at hle ⊢
    omega

theorem boundedRecentTools_head (entry : RecentTool) (rts : List RecentTool)
    (h : rts.length ≤ MAX_RECENT_TOOLS) :
    (boundedRecentTools entry rts).head? = some entry := by
  rw [boundedRecentTools_eq_take entry rts h]
  cases rts <;> rfl

/-- A sequence of `PostToolUse` events, each applied with its own
`Date.now()`. -/
def applyPosts (r : Registry) (pes : List (ToolHookEvent × Int)) : Registry :=
  pes.foldl (fun r pe => handlePostToolUse r pe.1 pe.2) r

/-- The tool-name view of `recentTools` after a run of `PostToolUse` events
for one active session: the newest `MAX_RECENT_TOOLS` completions,
most-recent-first. -/
theorem applyPosts_names : ∀ (pes : List (ToolHookEvent × Int)) (r : Registry)
    (sid : String) (rec : SessionRecord),
    mget r.activeSessions sid = some rec →
    rec.recentTools.length ≤ MAX_RECENT_TOOLS →
    (∀ pe ∈ pes, pe.1.sessionId = sid) →
    ∃ rc, mget (applyPosts r pes).activeSessions sid = some rc ∧
      rc.recentTools.map (·.name) =
        List.take MAX_RECENT_TOOLS
          ((pes.map (·.1.toolName)).reverse ++ rec.recentTools.map (·.name)) ∧
      rc.recentTools.length ≤ MAX_RECENT_TOOLS
  | [], r, sid, rec, hrec, hlen, _ => by
    refine ⟨rec, hrec, ?_, hlen⟩
    simp only [List.map_nil, List.reverse_nil, List.nil_append]
    rw [List.take_of_length_le]
    rw [List.length_map]
    exact hlen
  | pe :: tl, r, sid, rec, hrec, hlen, hall => by
    have hsid : pe.1.sessionId = sid := hall pe (List.mem_cons_self pe tl)
    have hrec' : mget r.activeSessions pe.1.sessionId = some rec := by
      rw [hsid]
      exact hrec
    have hstep := postTool_found pe.2 hrec'
    have hlook : mget (handlePostToolUse r pe.1 pe.2).activeSessions sid =
        some (postToolRecord rec pe.1 pe.2) := by
      rw [hstep]
      show mget (mset r.activeSessions pe.1.sessionId _) sid = _
      rw [mget_mset, hsid, if_pos rfl]
    have hlen1 : (postToolRecord rec pe.1 pe.2).recentTools.length ≤ MAX_RECENT_TOOLS :=
      boundedRecentTools_length _ _ hlen
    obtain ⟨rc, hrc, hnames, hrclen⟩ := applyPosts_names tl (handlePostToolUse r pe.1 pe.2)
      sid (postToolRecord rec pe.1 pe.2) hlook hlen1
      (fun pe' hpe' => hall pe' (List.mem_cons_of_mem pe hpe'))
    refine ⟨rc, hrc, ?_, hrclen⟩
    rw [hnames]
    have hname2 : (postToolRecord rec pe.1 pe.2).recentTools.map (·.name) =
        List.take MAX_RECENT_TOOLS
          (pe.1.toolName :: rec.recentTools.map (·.name)) := by
      show (boundedRecentTools (completedTool rec pe.1 pe.2) rec.recentTools).map (·.name) =
        _
      rw [boundedRecentTools_eq_take _ _ hlen, List.map_take]
      rfl
    rw [hname2, take_append_take]
    congr 1
    simp only [List.map_cons, List.reverse_cons, List.append_assoc, List.cons_append,
      List.nil_append]

/-! ## Skip-if-unchanged (claim C7) -/

theorem parse_skip {r : Registry} {f : String} {mt0 mt : Nat}
    (pr : Option SessionState)
    (hc : mget r.fileLastModified f = some mt0) (h0 : mt0 ≠ 0) (hle : mt ≤ mt0) :
    parseAndUpdateSession r f (some mt) pr = r := by
  have hskip : skipUnchanged r f mt = true := by
    unfold skipUnchanged
    rw [hc]
    simp [h0, hle]
  simp only [parseAndUpdateSession]
  rw [hskip]
  rfl

theorem applyParsedState_flm (r : Registry) (f : String) (st : SessionState) :
    (applyParsedState r f st).fileLastModified = r.fileLastModified := by
  unfold applyParsedState
  split <;> rfl

theorem parse_flm_cached {r : Registry} {f : String} {mt : Nat}
    (pr : Option SessionState) (hns : skipUnchanged r f mt = false) :
    mget (parseAndUpdateSession r f (some mt) pr).fileLastModified f = some mt := by
  simp only [parseAndUpdateSession]
  rw [hns]
  simp only [Bool.false_eq_true, if_false]
  cases pr with
  | none =>
    show mget (mset r.fileLastModified f mt) f = some mt
    rw [mget_mset, if_pos rfl]
  | some st =>
    rw [applyParsedState_flm]
    have := (updateOrphanedAgents_fields
      { r with fileLastModified := mset r.fileLastModified f mt } f st).2.2.2.2.2.1
    rw [this]
    show mget (mset r.fileLastModified f mt) f = some mt
    rw [mget_mset, if_pos rfl]

theorem parse_twice {r : Registry} {f : String} {mt : Nat}
    (p1 p2 : Option SessionState) (h0 : mt ≠ 0) :
    parseAndUpdateSession (parseAndUpdateSession r f (some mt) p1) f (some mt) p2 =
      parseAndUpdateSession r f (some mt) p1 := by
  cases hsk : skipUnchanged r f mt with
  | true =>
    have h1 : parseAndUpdateSession r f (some mt) p1 = r := by
      simp only [parseAndUpdateSession]
      rw [hsk]
      rfl
    have h2 : parseAndUpdateSession r f (some mt) p2 = r := by
      simp only [parseAndUpdateSession]
      rw [hsk]
      rfl
    rw [h1, h2]
  | false =>
    have hc : mget (parseAndUpdateSession r f (some mt) p1).fileLastModified f = some mt :=
      parse_flm_cached p1 hsk
    exact parse_skip p2 hc h0 (Nat.le_refl mt)

/-! ## Restore necessity (claims C3, C9) -/

theorem parse_active_lookup_sub {r : Registry} {f : String} {mt : Option Nat}
    {pr : Option SessionState} {sid : String} {rc : SessionRecord}
    (h : mget (parseAndUpdateSession r f mt pr).activeSessions sid = some rc) :
    ∃ rc₀, mget r.activeSessions sid = some rc₀ ∧
      rc₀.pidStartTime = rc.pidStartTime ∧ rc₀.recentTools = rc.recentTools := by
  rcases parse_active_shape r f mt pr with hsh | ⟨key, rec, st, hrec, hsh⟩
  · rw [hsh] at h
    exact ⟨rc, h, rfl, rfl⟩
  · rw [hsh, mget_mset] at h
    by_cases hs : sid = key
    · rw [if_pos hs] at h
      injection h with hh
      subst hh
      exact ⟨rec, hs ▸ hrec, rfl, rfl⟩
    · rw [if_neg hs] at h
      exact ⟨rc, h, rfl, rfl⟩

theorem restoreOne_lookup {live : Nat → Option String} {cwdEq : String → String → Bool}
    {ws : Option String} {canLink : Nat → Nat → Bool} {fsStat : String → Option Nat}
    {fsParse : String → Option SessionState} {now : Int} {r0 : Registry}
    {s : PersistedSession} {sid : String} {rc : SessionRecord}
    (h : mget (restoreOne live cwdEq ws canLink fsStat fsParse now r0 s).activeSessions
      sid = some rc) :
    (∃ rc₀, mget r0.activeSessions sid = some rc₀) ∨
    (s.sessionId = sid ∧ isProcessValid live s.pid (orNull s.pidStartTime) = true ∧
      canLink s.pid s.ppid = true ∧
      rc.pidStartTime = orNull s.pidStartTime ∧ rc.recentTools = s.recentTools.getD []) := by
  unfold restoreOne at h
  split at h
  · exact Or.inl ⟨rc, h⟩
  · next hval =>
    split at h
    · exact Or.inl ⟨rc, h⟩
    · split at h
      · exact Or.inl ⟨rc, h⟩
      · next hlink =>
        obtain ⟨rc₀, h₀, hps, hrt⟩ := parse_active_lookup_sub h
        have h₀' : mget (mset r0.activeSessions s.sessionId _) sid = some rc₀ := h₀
        rw [mget_mset] at h₀'
        by_cases hs : sid = s.sessionId
        · rw [if_pos hs] at h₀'
          injection h₀' with hh
          refine Or.inr ⟨hs.symm, ?_, ?_, ?_, ?_⟩
          · rcases hb : isProcessValid live s.pid (orNull s.pidStartTime) with _ | _
            · rw [hb] at hval
              simp at hval
            · rfl
          · rcases hb : canLink s.pid s.ppid with _ | _
            · rw [hb] at hlink
              simp at hlink
            · rfl
          · rw [← hps, ← hh]
          · rw [← hrt, ← hh]
        · rw [if_neg hs] at h₀'
          exact Or.inl ⟨rc₀, h₀'⟩

theorem restore_fold_lookup {live : Nat → Option String} {cwdEq : String → String → Bool}
    {ws : Option String} {canLink : Nat → Nat → Bool} {fsStat : String → Option Nat}
    {fsParse : String → Option SessionState} {now : Int} :
    ∀ (stored : List PersistedSession) (r0 : Registry) (sid : String) (rc : SessionRecord),
    mget ((stored.foldl (restoreOne live cwdEq ws canLink fsStat fsParse now) r0)).activeSessions
      sid = some rc →
    (∃ rc₀, mget r0.activeSessions sid = some rc₀) ∨
    ∃ s ∈ stored, s.sessionId = sid ∧
      isProcessValid live s.pid (orNull s.pidStartTime) = true
  | [], r0, sid, rc, h => Or.inl ⟨rc, h⟩
  | s :: tl, r0, sid, rc, h => by
    rcases restore_fold_lookup tl _ sid rc h with ⟨rc₀, h₀⟩ | ⟨s', hmem, hsid, hval⟩
    · rcases restoreOne_lookup h₀ with ⟨rc₁, h₁⟩ | ⟨hsid, hval, _, _, _⟩
      · exact Or.inl ⟨rc₁, h₁⟩
      · exact Or.inr ⟨s, List.mem_cons_self s tl, hsid, hval⟩
    · exact Or.inr ⟨s', List.mem_cons_of_mem s hmem, hsid, hval⟩

theorem parse_active_lookup_preserved {r : Registry} (f : String) (mt : Option Nat)
    (pr : Option SessionState) {k : String} {rec : SessionRecord}
    (hrec : mget r.activeSessions k = some rec) :
    ∃ rc, mget (parseAndUpdateSession r f mt pr).activeSessions k = some rc ∧
      rc.pidStartTime = rec.pidStartTime ∧ rc.recentTools = rec.recentTools := by
  rcases parse_active_shape r f mt pr with hsh | ⟨key, rec', st, hrec', hsh⟩
  · exact ⟨rec, by rw [hsh]; exact hrec, rfl, rfl⟩
  · by_cases hk : k = key
    · subst hk
      rw [hrec] at hrec'
      injection hrec' with hh
      subst hh
      exact ⟨{ rec with state := some st }, by rw [hsh, mget_mset, if_pos rfl], rfl, rfl⟩
    · exact ⟨rec, by rw [hsh, mget_mset, if_neg hk]; exact hrec, rfl, rfl⟩

instance (e : REvent) : Decidable (isStartNE e) :=
  match e with
  | .start ev _ _ _ => inferInstanceAs (Decidable (ev.sessionId ≠ ""))
  | .sessionEnd _ _ => inferInstanceAs (Decidable False)
  | .fileChange _ _ _ => inferInstanceAs (Decidable False)
  | .fileDelete _ => inferInstanceAs (Decidable False)
  | .preTool _ _ => inferInstanceAs (Decidable False)
  | .postTool _ _ => inferInstanceAs (Decidable False)
  | .cleanup _ _ => inferInstanceAs (Decidable False)

/-! ## Concrete data for scenarios, counterexamples and witnesses -/

/-- A parsed snapshot for session `A`. -/
def exState : SessionState :=
  { sessionId := "A", cwd := "c", created := 0, lastModified := 0
    status := .paused, isAgent := false, parentSessionId := none, lastUserPrompt := none }

def exStartA : HookEvent :=
  { sessionId := "A", transcriptPath := "P", cwd := "c", pid := 1, ppid := 2, tty := "t" }

def exStartB : HookEvent :=
  { sessionId := "B", transcriptPath := "P", cwd := "c", pid := 3, ppid := 4, tty := "t" }

/-- The spec scenario: two starts sharing `ppid = 4000`, different ids. -/
def exStartA4 : HookEvent :=
  { sessionId := "A", transcriptPath := "PA", cwd := "c", pid := 100, ppid := 4000, tty := "t" }

def exStartB4 : HookEvent :=
  { sessionId := "B", transcriptPath := "PB", cwd := "c", pid := 200, ppid := 4000, tty := "t" }

/-- The active record created by `.start exStartA 0 none none` on a fresh
registry. -/
def exRecordA : SessionRecord :=
  { sessionId := "A", transcriptPath := "P", cwd := "c", pid := 1, ppid := 2
    tty := "t", pidStartTime := none, state := none, currentTool := none
    recentTools := [], lastActivityTime := 0 }

/-! ## Claim C1 — index consistency -/

/-- C1, counterexample.  The claim as stated is false: a second `SessionStart`
that reuses the transcript path of a surviving active session (no pid/ppid
collision, so nothing is evicted) overwrites the path-index entry.  After
`start A (pid 1, ppid 2, path P)` then `start B (pid 3, ppid 4, path P)`,
record `A` is still active with `transcriptPath = "P"` but
`pathIndex["P"] = "B"`, so "the path index maps its transcriptPath to its
sessionId" fails for `A`. -/
theorem c1_index_consistency_counterexample :
    ¬ IndexConsistent (runEvents
      [.start exStartA 0 none none, .start exStartB 0 none none]) := by
  intro h
  have h5 : mget (runEvents
      [.start exStartA 0 none none, .start exStartB 0 none none]).pathIndex "P" =
      some "A" :=
    (h.pathIff "P" "A").mpr ⟨exRecordA, by decide, rfl⟩
  have h6 : mget (runEvents
      [.start exStartA 0 none none, .start exStartB 0 none none]).pathIndex "P" =
      some "B" := by decide
  rw [h5] at h6
  exact absurd (Option.some.inj h6) (by decide)

/-- C1, amended.  After any sequence of SessionStart, SessionEnd, file-change
and file-delete operations (tool and cleanup events included), the pid, ppid
and path indexes are exactly the graphs of the active records — provided each
`SessionStart` carries a non-empty session id that is not already active, and
any active claimant of its transcript path collides on pid or ppid (and is
therefore evicted).  Without the proviso the property fails, see the
counterexample. -/
theorem c1_index_consistency (evs : List REvent) (h : okSeq initRegistry evs) :
    IndexConsistent (runEvents evs) :=
  runFrom_inv evs initRegistry initRegistry_inv h

theorem c1_index_consistency_witness :
    IndexConsistent (runEvents [.start exStartA 0 none none, .sessionEnd "A" none]) :=
  c1_index_consistency _
    ⟨⟨by decide, rfl, fun _ _ hh => nomatch hh⟩, True.intro, True.intro⟩

/-! ## Claim C2 — at most one active record per pid / ppid -/

/-- C2.  (1) After any sequence of `SessionStart` events (with their non-empty
hook-supplied session ids) starting from a fresh registry, no two distinct
active records share a pid: the eviction loop of `handleSessionStart` removes
any active claimant of the incoming pid or ppid first.  (2) The spec scenario:
two starts with `ppid = 4000` and ids `A` then `B` leave `A` evicted and
`ppidIndex[4000] = "B"`. -/
theorem c2_at_most_one_per_pid :
    (∀ (evs : List REvent), (∀ e ∈ evs, isStartNE e) →
      ∀ sid1 rec1 sid2 rec2,
        mget (runEvents evs).activeSessions sid1 = some rec1 →
        mget (runEvents evs).activeSessions sid2 = some rec2 →
        rec1.pid = rec2.pid → sid1 = sid2) ∧
    mget (runEvents
      [.start exStartA4 0 none none, .start exStartB4 0 none none]).activeSessions "A" =
      none ∧
    mget (runEvents
      [.start exStartA4 0 none none, .start exStartB4 0 none none]).ppidIndex 4000 =
      some "B" := by
  refine ⟨?_, by decide, by decide⟩
  intro evs hall
  exact pidOwned_unique (runFrom_pidOwned evs initRegistry pidOwned_init hall)

theorem c2_at_most_one_per_pid_witness :
    ("B" : String) = "B" :=
  c2_at_most_one_per_pid.1
    [.start exStartA4 0 none none, .start exStartB4 0 none none] (by decide)
    "B" { sessionId := "B", transcriptPath := "PB", cwd := "c", pid := 200, ppid := 4000
          tty := "t", pidStartTime := none, state := none, currentTool := none
          recentTools := [], lastActivityTime := 0 }
    "B" { sessionId := "B", transcriptPath := "PB", cwd := "c", pid := 200, ppid := 4000
          tty := "t", pidStartTime := none, state := none, currentTool := none
          recentTools := [], lastActivityTime := 0 }
    (by decide) (by decide) rfl

/-! ## Claim C8 — active/archived exclusivity -/

/-- C8, counterexample.  The claim as stated is false: `handleSessionStart`
reads the archived entry for a resumed session id (`allSessions.get`) but
never deletes it.  Start `A`, parse its transcript, end `A` (archiving the
snapshot), then start `A` again: `A` is now in both maps. -/
theorem c8_exclusivity_counterexample :
    ¬ ActiveArchivedDisjoint (runEvents
      [.start exStartA 0 (some 1) (some exState), .sessionEnd "A" none,
       .start exStartA 0 none none]) := by
  intro h
  rcases h "A" with hh | hh
  · exact absurd hh (by decide)
  · exact absurd hh (by decide)

/-- C8, amended.  No session id is in both the active map and the archived
map after any sequence of SessionStart, SessionEnd, cleanup and file-parse
operations, provided each `SessionStart` is well formed as in C1 and
additionally does not reuse an archived session id (the code keeps the
archived entry of a resumed session, see the counterexample). -/
theorem c8_exclusivity (evs : List REvent) (h : okSeqFull initRegistry evs) :
    ActiveArchivedDisjoint (runEvents evs) :=
  runFrom_excl evs initRegistry initRegistry_inv initRegistry_excl h

theorem c8_exclusivity_witness :
    ActiveArchivedDisjoint (runEvents
      [.start exStartA 0 (some 1) (some exState), .sessionEnd "A" none]) :=
  c8_exclusivity _
    ⟨⟨by decide, rfl, fun _ _ hh => nomatch hh⟩, rfl, True.intro, True.intro, True.intro⟩

/-! ## Claim C4 — stale-tool bound -/

/-- A `PreToolUse` event for session `A` running `Bash` at `t = 0`. -/
def exBashEv : ToolHookEvent :=
  { sessionId := "A", transcriptPath := "P", cwd := "c", toolName := "Bash"
    toolInput := "", toolResult := none, timestamp := 0, pid := 1, ppid := 2, tty := "t" }

/-- C4.  A `ToolStart` (`handlePreToolUse`) for an active session arms a stale
timer that fires `STALE_TOOL_TIMEOUT_MS` after arming unless a matching
`PostToolUse` cancels it.  When it fires (`fireStaleTimer`) with no `ToolEnd`
in between: the session's `currentTool` becomes absent and exactly one
additional notification is scheduled.  The timeout is 30 s, so for a
`ToolStart` at `t = 0` the clear happens at `t = 30000 ms < 30001 ms`:
`currentTool` is already undefined at `t = 30.001 s`. -/
theorem c4_stale_tool_bound (r : Registry) (ev : ToolHookEvent) (now : Int)
    (rec : SessionRecord) (hrec : mget r.activeSessions ev.sessionId = some rec) :
    (∃ rc, mget (fireStaleTimer (handlePreToolUse r ev now) ev.sessionId
        ev.toolName).activeSessions ev.sessionId = some rc ∧ rc.currentTool = none) ∧
    (fireStaleTimer (handlePreToolUse r ev now) ev.sessionId ev.toolName).notifyCount =
      (handlePreToolUse r ev now).notifyCount + 1 ∧
    STALE_TOOL_TIMEOUT_MS = 30000 ∧ (0 : Int) + STALE_TOOL_TIMEOUT_MS < 30001 := by
  have h1 := preTool_found now hrec
  have hlook : mget (handlePreToolUse r ev now).activeSessions ev.sessionId =
      some (preToolRecord rec ev now) := by
    rw [h1]
    show mget (mset r.activeSessions ev.sessionId _) ev.sessionId = _
    rw [mget_mset, if_pos rfl]
  have h2 : fireStaleTimer (handlePreToolUse r ev now) ev.sessionId ev.toolName =
      notify { handlePreToolUse r ev now with
        activeSessions := mset (handlePreToolUse r ev now).activeSessions ev.sessionId
          { preToolRecord rec ev now with currentTool := none } } := by
    unfold fireStaleTimer
    rw [hlook]
    show (if ev.toolName = ev.toolName then _ else _) = _
    rw [if_pos rfl]
  refine ⟨⟨{ preToolRecord rec ev now with currentTool := none }, ?_, rfl⟩, ?_, rfl,
    by decide⟩
  · rw [h2]
    show mget (mset (handlePreToolUse r ev now).activeSessions ev.sessionId _)
      ev.sessionId = _
    rw [mget_mset, if_pos rfl]
  · rw [h2]
    rfl

theorem c4_stale_tool_bound_witness :
    (∃ rc, mget (fireStaleTimer
        (handlePreToolUse (runEvents [.start exStartA 0 none none]) exBashEv 0)
        "A" "Bash").activeSessions "A" = some rc ∧ rc.currentTool = none) ∧
    (fireStaleTimer (handlePreToolUse (runEvents [.start exStartA 0 none none])
        exBashEv 0) "A" "Bash").notifyCount =
      (handlePreToolUse (runEvents [.start exStartA 0 none none]) exBashEv 0).notifyCount
        + 1 ∧
    STALE_TOOL_TIMEOUT_MS = 30000 ∧ (0 : Int) + STALE_TOOL_TIMEOUT_MS < 30001 :=
  c4_stale_tool_bound (runEvents [.start exStartA 0 none none]) exBashEv 0 exRecordA
    (by decide)

/-! ## Claim C5 — bounded tool history -/

/-- C5.  (1) Along any event sequence from a fresh registry, every active
record's `recentTools` stays within `MAX_RECENT_TOOLS = 15`.  (2) For a run of
`PostToolUse` events on one active session starting from an empty history, the
retained tool names are exactly the most recent 15 completions,
most-recent-first (newly completed tools are prepended, the oldest entry is
dropped first). -/
theorem c5_bounded_tool_history :
    (∀ (evs : List REvent) (sid : String) (rec : SessionRecord),
      mget (runEvents evs).activeSessions sid = some rec →
      rec.recentTools.length ≤ MAX_RECENT_TOOLS) ∧
    (∀ (r : Registry) (sid : String) (rec : SessionRecord)
      (pes : List (ToolHookEvent × Int)),
      mget r.activeSessions sid = some rec → rec.recentTools = [] →
      (∀ pe ∈ pes, pe.1.sessionId = sid) →
      ∃ rc, mget (applyPosts r pes).activeSessions sid = some rc ∧
        rc.recentTools.map (·.name) =
          List.take MAX_RECENT_TOOLS (pes.map (·.1.toolName)).reverse ∧
        rc.recentTools.length ≤ MAX_RECENT_TOOLS) := by
  constructor
  · intro evs sid rec h
    exact runFrom_rtb evs initRegistry rtb_init sid rec h
  · intro r sid rec pes hrec hnil hall
    have hlen : rec.recentTools.length ≤ MAX_RECENT_TOOLS := by
      rw [hnil]
      exact Nat.zero_le _
    obtain ⟨rc, h1, h2, h3⟩ := applyPosts_names pes r sid rec hrec hlen hall
    refine ⟨rc, h1, ?_, h3⟩
    rw [h2, hnil]
    simp only [List.map_nil, List.append_nil]

/-- Seventeen `PostToolUse` events for session `A`, tool names `"0"`…`"16"`. -/
def exPosts : List (ToolHookEvent × Int) :=
  (List.range 17).map fun i =>
    ({ sessionId := "A", transcriptPath := "P", cwd := "c", toolName := toString i
       toolInput := "", toolResult := none, timestamp := 0, pid := 1, ppid := 2
       tty := "t" }, 0)

theorem c5_bounded_tool_history_witness :
    ∃ rc, mget (applyPosts (runEvents [.start exStartA 0 none none])
        exPosts).activeSessions "A" = some rc ∧
      rc.recentTools.map (·.name) =
        List.take MAX_RECENT_TOOLS (exPosts.map (·.1.toolName)).reverse ∧
      rc.recentTools.length ≤ MAX_RECENT_TOOLS :=
  c5_bounded_tool_history.2 (runEvents [.start exStartA 0 none none]) "A" exRecordA
    exPosts (by decide) rfl (by decide)

/-! ## Claim C6 — ToolEnd postcondition -/

/-- C6.  Handling a `PostToolUse` event for an active session yields a record
whose `currentTool` is cleared, whose `recentTools` is the old list with one
entry prepended (capacity-bounded, keeping the newest 15) — the new entry
carrying duration "completion timestamp minus recorded start time", or `0`
when no tool start was recorded — and the stale timer is cancelled: firing it
afterwards (any tool name) changes nothing.  Exactly one notification is
scheduled. -/
theorem c6_tool_end_postcondition (r : Registry) (ev : ToolHookEvent) (now : Int)
    (rec : SessionRecord) (hrec : mget r.activeSessions ev.sessionId = some rec)
    (hlen : rec.recentTools.length ≤ MAX_RECENT_TOOLS) :
    ∃ rc, mget (handlePostToolUse r ev now).activeSessions ev.sessionId = some rc ∧
      rc.currentTool = none ∧
      rc.recentTools = List.take MAX_RECENT_TOOLS
        ({ name := ev.toolName, input := ev.toolInput, result := ev.toolResult
           duration :=
             match rec.currentTool with
             | some ct => (if ev.timestamp ≠ 0 then ev.timestamp else now) - ct.startTime
             | none => 0
           timestamp := if ev.timestamp ≠ 0 then ev.timestamp else now } ::
          rec.recentTools) ∧
      (∀ tn, fireStaleTimer (handlePostToolUse r ev now) ev.sessionId tn =
        handlePostToolUse r ev now) ∧
      (handlePostToolUse r ev now).notifyCount = r.notifyCount + 1 := by
  have h1 := postTool_found now hrec
  have hlook : mget (handlePostToolUse r ev now).activeSessions ev.sessionId =
      some (postToolRecord rec ev now) := by
    rw [h1]
    show mget (mset r.activeSessions ev.sessionId _) ev.sessionId = _
    rw [mget_mset, if_pos rfl]
  refine ⟨postToolRecord rec ev now, hlook, rfl, ?_, ?_, ?_⟩
  · show boundedRecentTools (completedTool rec ev now) rec.recentTools = _
    rw [boundedRecentTools_eq_take _ _ hlen]
    rfl
  · intro tn
    unfold fireStaleTimer
    rw [hlook]
    rfl
  · rw [h1]
    rfl

theorem c6_tool_end_postcondition_witness :
    ∃ rc, mget (handlePostToolUse (runEvents [.start exStartA 0 none none])
        exBashEv 7).activeSessions "A" = some rc ∧
      rc.currentTool = none ∧
      rc.recentTools = List.take MAX_RECENT_TOOLS
        ({ name := "Bash", input := "", result := none
           duration :=
             match exRecordA.currentTool with
             | some ct => (if (0 : Int) ≠ 0 then 0 else 7) - ct.startTime
             | none => 0
           timestamp := if (0 : Int) ≠ 0 then 0 else 7 } :: exRecordA.recentTools) ∧
      (∀ tn, fireStaleTimer (handlePostToolUse (runEvents [.start exStartA 0 none none])
          exBashEv 7) "A" tn =
        handlePostToolUse (runEvents [.start exStartA 0 none none]) exBashEv 7) ∧
      (handlePostToolUse (runEvents [.start exStartA 0 none none])
        exBashEv 7).notifyCount =
        (runEvents [.start exStartA 0 none none]).notifyCount + 1 :=
  c6_tool_end_postcondition (runEvents [.start exStartA 0 none none]) exBashEv 7
    exRecordA (by decide) (by decide)

/-! ## Claim C7 — idempotent re-parse -/

/-- C7.  Skip-if-unchanged: with a (non-zero) cached mtime `mt0` for a file,
a parse that observes an mtime `mt ≤ mt0` returns the registry unchanged — no
map or index mutation and no notification.  Hence parsing the same file twice
at the same observed mtime equals parsing it once, and any parse that does
change the registry must have observed an mtime strictly beyond the cached
value.  (An actual transcript's `mtimeMs` is positive; a cached `0` would be
falsy in the source's skip test.) -/
theorem c7_idempotent_reparse :
    (∀ (r : Registry) (f : String) (mt0 mt : Nat) (pr : Option SessionState),
      mget r.fileLastModified f = some mt0 → mt0 ≠ 0 → mt ≤ mt0 →
      parseAndUpdateSession r f (some mt) pr = r) ∧
    (∀ (r : Registry) (f : String) (mt : Nat) (p1 p2 : Option SessionState), mt ≠ 0 →
      parseAndUpdateSession (parseAndUpdateSession r f (some mt) p1) f (some mt) p2 =
        parseAndUpdateSession r f (some mt) p1) ∧
    (∀ (r : Registry) (f : String) (mt0 mt : Nat) (pr : Option SessionState),
      mget r.fileLastModified f = some mt0 → mt0 ≠ 0 →
      parseAndUpdateSession r f (some mt) pr ≠ r → mt0 < mt) := by
  refine ⟨fun r f mt0 mt pr hc h0 hle => parse_skip pr hc h0 hle,
    fun r f mt p1 p2 h0 => parse_twice p1 p2 h0, ?_⟩
  intro r f mt0 mt pr hc h0 hne
  by_contra hlt
  exact hne (parse_skip pr hc h0 (Nat.le_of_not_lt hlt))

theorem c7_idempotent_reparse_witness :
    parseAndUpdateSession
      (parseAndUpdateSession initRegistry "F" (some 5) (some exState)) "F" (some 5)
      (some exState) =
    parseAndUpdateSession initRegistry "F" (some 5) (some exState) :=
  c7_idempotent_reparse.2.1 initRegistry "F" 5 (some exState) (some exState) (by decide)

/-! ## Claim C10 — unknown-session tool events are no-ops -/

/-- C10.  A `PreToolUse` or `PostToolUse` event whose session id has no active
record leaves the registry completely unchanged: the handlers return before
touching any map, index, record or the notification machinery. -/
theorem c10_unknown_session_noop (r : Registry) (ev : ToolHookEvent) (now : Int)
    (h : mget r.activeSessions ev.sessionId = none) :
    handlePreToolUse r ev now = r ∧ handlePostToolUse r ev now = r := by
  constructor
  · unfold handlePreToolUse
    rw [h]
  · unfold handlePostToolUse
    rw [h]

theorem c10_unknown_session_noop_witness :
    handlePreToolUse (runEvents [.start exStartA 0 none none])
        { exBashEv with sessionId := "Z" } 9 =
      runEvents [.start exStartA 0 none none] ∧
    handlePostToolUse (runEvents [.start exStartA 0 none none])
        { exBashEv with sessionId := "Z" } 9 =
      runEvents [.start exStartA 0 none none] :=
  c10_unknown_session_noop (runEvents [.start exStartA 0 none none])
    { exBashEv with sessionId := "Z" } 9 (by decide)

/-! ## Claim C3 — PID-reuse fencing -/

/-- A process table with one live process: pid 100 with fingerprint `"T1"`. -/
def live100 : Nat → Option String := fun p => if p = 100 then some "T1" else none

/-- A stand-in for the external `cwdEquals` helper. -/
def cwdEqStr : String → String → Bool := fun a b => a == b

/-- The spec scenario's persisted record: pid 100 with fingerprint `"T1"`. -/
def storedT1 : PersistedSession :=
  { sessionId := "R", transcriptPath := "PR", cwd := "c", pid := 100, ppid := 2
    tty := "t", pidStartTime := some "T1", recentTools := none }

/-- C3.  (1) With a stored (non-empty) fingerprint `F1` and a live process at
the same pid whose fingerprint is `F2 ≠ F1`, validation rejects.  (2) With no
stored fingerprint, validation degrades to "a process with this pid exists".
(3) Restore necessity: any session active after `restorePersistedSessions`
(from a fresh registry) comes from a stored record that passed
`isProcessValid` — so a record failing the fingerprint check is never
restored.  (An empty stored fingerprint is falsy in the source and counts as
"no stored fingerprint", hence `F1 ≠ ""` in (1).) -/
theorem c3_pid_reuse_fencing :
    (∀ (live : Nat → Option String) (pid : Nat) (F1 F2 : String),
      getProcessStartTime live pid = some F2 → F1 ≠ "" → F2 ≠ F1 →
      isProcessValid live pid (some F1) = false) ∧
    (∀ (live : Nat → Option String) (pid : Nat),
      isProcessValid live pid none = (getProcessStartTime live pid).isSome) ∧
    (∀ (live : Nat → Option String) (cwdEq : String → String → Bool)
      (ws : Option String) (canLink : Nat → Nat → Bool) (fsStat : String → Option Nat)
      (fsParse : String → Option SessionState) (now : Int)
      (stored : List PersistedSession) (sid : String) (rc : SessionRecord),
      mget (restorePersistedSessions live cwdEq ws canLink fsStat fsParse now
        initRegistry stored).activeSessions sid = some rc →
      ∃ s ∈ stored, s.sessionId = sid ∧
        isProcessValid live s.pid (orNull s.pidStartTime) = true) := by
  refine ⟨?_, ?_, ?_⟩
  · intro live pid F1 F2 hF2 hne1 hne2
    unfold isProcessValid
    rw [hF2]
    show (if F1 = "" then true else decide (F2 = F1)) = false
    rw [if_neg hne1]
    simp [hne2]
  · intro live pid
    unfold isProcessValid
    cases getProcessStartTime live pid <;> rfl
  · intro live cwdEq ws canLink fsStat fsParse now stored sid rc h
    rcases restore_fold_lookup stored
        { initRegistry with fileLastModified := [] } sid rc h with ⟨rc₀, h₀⟩ | hex
    · cases h₀
    · exact hex

theorem c3_pid_reuse_fencing_witness :
    isProcessValid live100 100 (some "T0") = false ∧
    isProcessValid live100 100 none = (getProcessStartTime live100 100).isSome ∧
    ∃ s ∈ [storedT1], s.sessionId = "R" ∧
      isProcessValid live100 s.pid (orNull s.pidStartTime) = true :=
  ⟨c3_pid_reuse_fencing.1 live100 100 "T0" "T1" (by decide) (by decide) (by decide),
   c3_pid_reuse_fencing.2.1 live100 100,
   c3_pid_reuse_fencing.2.2 live100 cwdEqStr none (fun _ _ => true) (fun _ => none)
     (fun _ => none) 0 [storedT1] "R"
     { sessionId := "R", transcriptPath := "PR", cwd := "c", pid := 100, ppid := 2
       tty := "t", pidStartTime := some "T1", state := none, currentTool := none
       recentTools := [], lastActivityTime := 0 }
     (by decide)⟩

/-! ## Claim C9 — persisted schema -/

/-- A record in the shape of the pre-`pidStartTime` store schema. -/
def legacyStored : PersistedSession :=
  { sessionId := "L", transcriptPath := "PL", cwd := "c", pid := 100, ppid := 2
    tty := "t", pidStartTime := none, recentTools := none }

/-- C9, counterexample.  The claim as stated is false: the persisted store is
not versioned.  `persistSessions` writes a bare array under a fixed storage
key and `restorePersistedSessions` reads it back with no version check; a
store in the older schema (no `pidStartTime`, no `recentTools` fields — the
ones the source marks "Optional for backwards compat") is not discarded on
load: with a live process at its pid the session is restored instead of the
store being reset to empty (the claimed cold start). -/
theorem c9_versioned_persistence_counterexample :
    mget (restorePersistedSessions live100 cwdEqStr none (fun _ _ => true)
      (fun _ => none) (fun _ => none) 0 initRegistry [legacyStored]).activeSessions
      "L" ≠ none := by decide

theorem restoreOne_adds (live : Nat → Option String) (cwdEq : String → String → Bool)
    (ws : Option String) (canLink : Nat → Nat → Bool) (fsStat : String → Option Nat)
    (fsParse : String → Option SessionState) (now : Int) (r0 : Registry)
    (s : PersistedSession)
    (hval : isProcessValid live s.pid (orNull s.pidStartTime) = true)
    (hws : workspaceBlocked cwdEq ws s.cwd = false)
    (hlink : canLink s.pid s.ppid = true) :
    ∃ rc, mget (restoreOne live cwdEq ws canLink fsStat fsParse now r0 s).activeSessions
      s.sessionId = some rc ∧
      rc.pidStartTime = orNull s.pidStartTime ∧
      rc.recentTools = s.recentTools.getD [] := by
  unfold restoreOne
  rw [hval, hws, hlink]
  simp only [Bool.not_true, Bool.false_eq_true, if_false]
  have hreg : mget (registerRecord r0
      { sessionId := s.sessionId, transcriptPath := s.transcriptPath, cwd := s.cwd
        pid := s.pid, ppid := s.ppid, tty := s.tty
        pidStartTime := orNull s.pidStartTime, state := none, currentTool := none
        recentTools := s.recentTools.getD [], lastActivityTime := now }).activeSessions
      s.sessionId = some
      { sessionId := s.sessionId, transcriptPath := s.transcriptPath, cwd := s.cwd
        pid := s.pid, ppid := s.ppid, tty := s.tty
        pidStartTime := orNull s.pidStartTime, state := none, currentTool := none
        recentTools := s.recentTools.getD [], lastActivityTime := now } := by
    show mget (mset r0.activeSessions s.sessionId _) s.sessionId = _
    rw [mget_mset, if_pos rfl]
  obtain ⟨rc, hrc, hf1, hf2⟩ := parse_active_lookup_preserved
    s.transcriptPath (fsStat s.transcriptPath) (fsParse s.transcriptPath) hreg
  exact ⟨rc, hrc, hf1, hf2⟩

/-- C9, amended.  The persisted store is an unversioned array of
`{sessionId, transcriptPath, cwd, pid, ppid, tty, pidStartTime, recentTools}`
projections of the active records, and load performs no version check:
old-schema records (missing `pidStartTime` / `recentTools`) are accepted with
defaults — `null` fingerprint (legacy pid-only validation) and empty tool
history — and pass through the usual liveness/workspace/linkability gates
rather than the store being discarded. -/
theorem c9_versioned_persistence :
    (∀ r : Registry, persistSessions r = r.activeSessions.map (fun p =>
      { sessionId := p.2.sessionId, transcriptPath := p.2.transcriptPath
        cwd := p.2.cwd, pid := p.2.pid, ppid := p.2.ppid, tty := p.2.tty
        pidStartTime := p.2.pidStartTime
        recentTools := some p.2.recentTools })) ∧
    (∀ (live : Nat → Option String) (cwdEq : String → String → Bool)
      (canLink : Nat → Nat → Bool) (fsStat : String → Option Nat)
      (fsParse : String → Option SessionState) (now : Int) (s : PersistedSession),
      s.pidStartTime = none → s.recentTools = none →
      isProcessValid live s.pid none = true → canLink s.pid s.ppid = true →
      ∃ rc, mget (restorePersistedSessions live cwdEq none canLink fsStat fsParse now
          initRegistry [s]).activeSessions s.sessionId = some rc ∧
        rc.pidStartTime = none ∧ rc.recentTools = []) := by
  constructor
  · intro r
    unfold persistSessions
    generalize r.activeSessions = l
    induction l with
    | nil => rfl
    | cons p tl ih =>
      simp only [List.foldr, List.map]
      rw [ih]
  · intro live cwdEq canLink fsStat fsParse now s hps hrt hval hlink
    have hone : restorePersistedSessions live cwdEq none canLink fsStat fsParse now
        initRegistry [s] =
        restoreOne live cwdEq none canLink fsStat fsParse now initRegistry s := rfl
    rw [hone]
    obtain ⟨rc, hrc, hf1, hf2⟩ := restoreOne_adds live cwdEq none canLink fsStat
      fsParse now initRegistry s (by rw [hps]; exact hval) rfl hlink
    refine ⟨rc, hrc, ?_, ?_⟩
    · rw [hf1, hps]
      rfl
    · rw [hf2, hrt]
      rfl

theorem c9_versioned_persistence_witness :
    ∃ rc, mget (restorePersistedSessions live100 cwdEqStr none (fun _ _ => true)
        (fun _ => none) (fun _ => none) 0 initRegistry
        [legacyStored]).activeSessions "L" = some rc ∧
      rc.pidStartTime = none ∧ rc.recentTools = [] :=
  c9_versioned_persistence.2 live100 cwdEqStr (fun _ _ => true) (fun _ => none)
    (fun _ => none) 0 legacyStored rfl rfl (by decide) rfl

end ClaudeWatch
